import Mathlib

/-!
Verification development for the liso library (terminal line input with
simultaneous output).  The definitions below are a shallow embedding of the
Rust sources: `src/line.rs` (styled-line model), `src/history.rs`
(command history), `src/worker.rs` (editor state machine and differential
renderer) and `src/lib.rs` (public request construction and death
reporting).  Rust byte offsets into UTF-8 strings are represented as `Nat`
offsets into a `List Char`, measured with `Char.utf8Size`, so that all
code-point-boundary behaviour of the original is preserved.
-/

namespace Liso

/-! ## Basic data model: Style, Color (src/lib.rs, src/line.rs) -/

/-- Embedding of `Style` (bitflags with BOLD, DIM, UNDERLINE, INVERSE,
ITALIC).  Each flag is one field. -/
structure Style where
  bold : Bool
  dim : Bool
  underline : Bool
  inverse : Bool
  italic : Bool
deriving DecidableEq, Repr

/-- The empty style, `Style::PLAIN` (= `Style::empty()`). -/
def Style.PLAIN : Style := ⟨false, false, false, false, false⟩

/-- The `Style::INVERSE` singleton. -/
def Style.INVERSE : Style := ⟨false, false, false, true, false⟩

/-- The `Style::BOLD` singleton. -/
def Style.BOLD : Style := ⟨true, false, false, false, false⟩

/-- The `Style::UNDERLINE` singleton. -/
def Style.UNDERLINE : Style := ⟨false, false, true, false, false⟩

/-- Bitwise xor of styles (Rust `^` on bitflags). -/
def Style.sxor (a b : Style) : Style :=
  ⟨xor a.bold b.bold, xor a.dim b.dim, xor a.underline b.underline,
   xor a.inverse b.inverse, xor a.italic b.italic⟩

/-- Bitwise union of styles (Rust `|` on bitflags). -/
def Style.sor (a b : Style) : Style :=
  ⟨a.bold || b.bold, a.dim || b.dim, a.underline || b.underline,
   a.inverse || b.inverse, a.italic || b.italic⟩

/-- Set difference of styles (Rust `-` on bitflags). -/
def Style.sdiff (a b : Style) : Style :=
  ⟨a.bold && !b.bold, a.dim && !b.dim, a.underline && !b.underline,
   a.inverse && !b.inverse, a.italic && !b.italic⟩

/-- Rust `Style::contains`: every flag of `b` is set in `a`. -/
def Style.hasAll (a b : Style) : Bool :=
  (!b.bold || a.bold) && (!b.dim || a.dim) && (!b.underline || a.underline)
    && (!b.inverse || a.inverse) && (!b.italic || a.italic)

/-- Embedding of `Color`: the eight terminal color indices. -/
inductive Color where
  | Black | Red | Green | Yellow | Blue | Cyan | Magenta | White
deriving DecidableEq, Repr

/-! ## UTF-8 byte arithmetic over `List Char` -/

/-- Number of UTF-8 bytes of a character list (Rust `str::len`). -/
def utf8Len : List Char → Nat
  | [] => 0
  | c :: cs => c.utf8Size + utf8Len cs

/-- Rust `str::is_char_boundary`: `i` is `0`, or the cumulative UTF-8 size
of a prefix of the text.  Offsets beyond the total length are not
boundaries, matching Rust. -/
def isBoundary : List Char → Nat → Bool
  | _, 0 => true
  | [], _ + 1 => false
  | c :: cs, i + 1 =>
    if i + 1 < c.utf8Size then false else isBoundary cs (i + 1 - c.utf8Size)

/-- The characters making up the first `n` bytes of the text.  On a
boundary offset this is exactly Rust's `&s[..n]`; a partially covered
character is kept whole (such calls panic in Rust and are unreachable
here). -/
def takeBytes : Nat → List Char → List Char
  | _, [] => []
  | n, c :: cs => if n = 0 then [] else c :: takeBytes (n - c.utf8Size) cs

/-- The characters after the first `n` bytes of the text.  On a boundary
offset this is exactly Rust's `&s[n..]`. -/
def dropBytes : Nat → List Char → List Char
  | _, [] => []
  | n, c :: cs => if n = 0 then c :: cs else dropBytes (n - c.utf8Size) cs

/-- The characters of the byte range `[s, e)` (Rust `&text[s..e]`). -/
def sliceBytes (text : List Char) (s e : Nat) : List Char :=
  takeBytes (e - s) (dropBytes s text)

/-- The first character starting at byte offset `i`
(Rust `s[i..].chars().next()`). -/
def charAtByte (text : List Char) (i : Nat) : Option Char :=
  (dropBytes i text).head?

/-- Rust `String::replace_range(s..e, repl)` at boundary offsets. -/
def replaceRange (text : List Char) (s e : Nat) (repl : List Char) :
    List Char :=
  takeBytes s text ++ repl ++ dropBytes e text

/-! ## LineElement and Line (src/line.rs) -/

/-- Embedding of `LineElement`: a styled span `[start, stop)` of the parent
line's text, in byte offsets.  Rust calls the second offset `end`, which is
a reserved word in Lean. -/
structure LineElement where
  style : Style
  fg : Option Color
  bg : Option Color
  start : Nat
  stop : Nat
deriving DecidableEq, Repr

/-- Embedding of `Line`: text plus its styled spans. -/
structure Line where
  text : List Char
  elements : List LineElement
deriving DecidableEq, Repr

/-- `Line::new()`. -/
def Line.new : Line := ⟨[], []⟩

/-- Replace the last entry of a list (Rust `last_mut` mutation). -/
def modifyLast (f : α → α) : List α → List α
  | [] => []
  | [x] => [f x]
  | x :: y :: xs => x :: modifyLast f (y :: xs)

/-- Embedding of the private `Line::append_text`.  The two `assert_eq!`
calls of the original hold on every line built by the public operations
(they are consequences of the element-range invariant) and are not
modelled as failures. -/
def Line.appendText (l : Line) (i : List Char) : Line :=
  if i = [] then l
  else if l.text = [] then
    match l.elements.getLast? with
    | none =>
      { text := i,
        elements := [⟨Style.PLAIN, none, none, 0, utf8Len i⟩] }
    | some _ =>
      -- Rust asserts the last element has start = 0 and end = 0 here.
      { text := i,
        elements := modifyLast (fun e => { e with stop := utf8Len i })
          l.elements }
  else
    let start := utf8Len l.text
    -- Rust asserts the last element's end equals `start` here.
    { text := l.text ++ i,
      elements := modifyLast (fun e => { e with stop := start + utf8Len i })
        l.elements }

/-- `Line::get_style`. -/
def Line.getStyle (l : Line) : Style :=
  match l.elements.getLast? with
  | none => Style.PLAIN
  | some x => x.style

/-- `Line::set_style`. -/
def Line.setStyle (l : Line) (nu : Style) : Line :=
  match l.elements.getLast? with
  | none =>
    -- case 1: no elements yet, make one
    { l with elements :=
        l.elements ++ [⟨nu, none, none, utf8Len l.text, utf8Len l.text⟩] }
  | some x =>
    if x.style = nu then l -- case 2: no change
    else if x.start = x.stop then
      -- case 3: last element doesn't have text yet; mutate in place
      { l with elements :=
          modifyLast (fun e => { e with style := nu }) l.elements }
    else
      -- case 4: an element with text is here; push a fresh empty element
      { l with elements :=
          l.elements ++ [⟨nu, x.fg, x.bg, utf8Len l.text, utf8Len l.text⟩] }

/-- `Line::toggle_style`. -/
def Line.toggleStyle (l : Line) (nu : Style) : Line :=
  l.setStyle (l.getStyle.sxor nu)

/-- `Line::activate_style`. -/
def Line.activateStyle (l : Line) (nu : Style) : Line :=
  l.setStyle (l.getStyle.sor nu)

/-- `Line::deactivate_style`. -/
def Line.deactivateStyle (l : Line) (nu : Style) : Line :=
  l.setStyle (l.getStyle.sdiff nu)

/-- `Line::clear_style`. -/
def Line.clearStyle (l : Line) : Line := l.setStyle Style.PLAIN

/-- `Line::get_colors`. -/
def Line.getColors (l : Line) : Option Color × Option Color :=
  match l.elements.getLast? with
  | none => (none, none)
  | some x => (x.fg, x.bg)

/-- `Line::set_colors`. -/
def Line.setColors (l : Line) (fg bg : Option Color) : Line :=
  match l.elements.getLast? with
  | none =>
    { l with elements :=
        l.elements
          ++ [⟨Style.PLAIN, fg, bg, utf8Len l.text, utf8Len l.text⟩] }
  | some x =>
    if x.fg = fg ∧ x.bg = bg then l
    else if x.start = x.stop then
      { l with elements :=
          modifyLast (fun e => { e with fg := fg, bg := bg }) l.elements }
    else
      { l with elements :=
          l.elements ++ [⟨x.style, fg, bg, utf8Len l.text, utf8Len l.text⟩] }

/-- `Line::set_fg_color`. -/
def Line.setFgColor (l : Line) (nu : Option Color) : Line :=
  let (fg, bg) := l.getColors
  if nu ≠ fg then l.setColors nu bg else l

/-- `Line::set_bg_color`. -/
def Line.setBgColor (l : Line) (nu : Option Color) : Line :=
  let (fg, bg) := l.getColors
  if nu ≠ bg then l.setColors fg nu else l

/-- `Line::reset_all`. -/
def Line.resetAll (l : Line) : Line :=
  (l.setStyle Style.PLAIN).setColors none none

/-! ## Control-character substitution (`Line::add_text`) -/

/-- Rust `char::is_control`: the C0 block, DEL, and the C1 block. -/
def isRustControl (c : Char) : Bool :=
  c.toNat ≤ 0x1F || (0x7F ≤ c.toNat && c.toNat ≤ 0x9F)

/-- The match predicate of `add_text`: C0/C1 controls other than newline,
plus U+2028 LINE SEPARATOR and U+2029 PARAGRAPH SEPARATOR. -/
def isForbidden (c : Char) : Bool :=
  (isRustControl c && c ≠ '\n') || c = Char.ofNat 0x2028
    || c = Char.ofNat 0x2029

/-- One uppercase hexadecimal digit. -/
def hexDigit (n : Nat) : Char :=
  if n < 10 then Char.ofNat (48 + n) else Char.ofNat (55 + n)

/-- Four-digit uppercase hexadecimal rendering, as produced by Rust's
`format!("U+{:04X}", n)` for `n < 0x10000` (every substituted code point
is below 0x10000: C1 controls are ≤ 0x9F and the separators are
0x2028/0x2029). -/
def hex4 (n : Nat) : List Char :=
  [hexDigit (n / 4096 % 16), hexDigit (n / 256 % 16),
   hexDigit (n / 16 % 16), hexDigit (n % 16)]

/-- The replacement text for one forbidden character: caret form
`^@`..`^_` below 32, `U+XXXX` form otherwise. -/
def rewriteSeg (c : Char) : List Char :=
  if c.toNat < 32 then ['^', Char.ofNat (64 + c.toNat)]
  else 'U' :: '+' :: hex4 c.toNat

/-- The loop of `Line::add_text` over the `match_indices` iterator:
`pending` is the plain run accumulated since `plain_start`; on each
forbidden character the plain run is flushed, `INVERSE` is toggled, the
rewritten form is appended, and `INVERSE` is toggled back. -/
def Line.addTextGo (l : Line) (pending : List Char) :
    List Char → Line
  | [] => l.appendText pending
  | c :: cs =>
    if isForbidden c then
      let l1 := l.appendText pending
      let l2 := l1.toggleStyle Style.INVERSE
      let l3 := l2.appendText (rewriteSeg c)
      let l4 := l3.toggleStyle Style.INVERSE
      Line.addTextGo l4 [] cs
    else Line.addTextGo l (pending ++ [c]) cs

/-- `Line::add_text`. -/
def Line.addText (l : Line) (i : List Char) : Line :=
  if i = [] then l else l.addTextGo [] i

/-- `Line::from_str` (and `from_cow` / `from_string`). -/
def Line.fromStr (i : List Char) : Line := Line.new.addText i

/-- `Line::reset_and_break`. -/
def Line.resetAndBreak (l : Line) : Line :=
  ((l.addText ['\n']).setStyle Style.PLAIN).setColors none none

/-- `Line::append_line`. -/
def Line.appendLine (l : Line) (other : Line) : Line :=
  other.elements.foldl
    (fun acc el =>
      ((acc.setStyle el.style).setColors el.fg el.bg).addText
        (sliceBytes other.text el.start el.stop))
    l

/-- `Line::len` (bytes). -/
def Line.length (l : Line) : Nat := utf8Len l.text

end Liso

namespace Liso

/-! ## The Line element-range invariant (spec §3, claim C2) -/

/-- Element ranges are consecutive: each element starts where the previous
one stopped, the first starts at `p`, and the last stops at `last`. -/
def rangesOk (p last : Nat) : List LineElement → Bool
  | [] => p = last
  | e :: es => e.start = p && e.start ≤ e.stop && rangesOk e.stop last es

/-- Every element other than the final one is nonempty. -/
def nonemptyExceptLast : List LineElement → Bool
  | [] => true
  | [_] => true
  | e :: e2 :: es => decide (e.start < e.stop)
      && nonemptyExceptLast (e2 :: es)

/-- Adjacent elements carry distinct (style, fg, bg) attribute triples. -/
def adjacentDistinct : List LineElement → Bool
  | e :: e2 :: es =>
    decide ((e.style, e.fg, e.bg) ≠ (e2.style, e2.fg, e2.bg))
      && adjacentDistinct (e2 :: es)
  | _ => true

/-- Every element endpoint is a UTF-8 boundary of the text. -/
def elementBoundariesOk (text : List Char) : List LineElement → Bool
  | [] => true
  | e :: es => isBoundary text e.start && isBoundary text e.stop
      && elementBoundariesOk text es

/-- The full `Line` invariant claimed by the spec: elements sorted and
contiguous over `[0, text byte length)`, endpoints on code-point
boundaries, empty element only at the end, adjacent attribute triples
distinct. -/
def lineInv (l : Line) : Bool :=
  rangesOk 0 (utf8Len l.text) l.elements
    && nonemptyExceptLast l.elements
    && adjacentDistinct l.elements
    && elementBoundariesOk l.text l.elements

/-! ## Word wrap (`Line::wrap_to_width`, src/line.rs)

The break positions themselves come from the external `textwrap` crate:
`textwrap::wrap` returns borrowed subslices of the natural line, which
`convert_subset_slice_to_range` turns into absolute byte ranges.  The
in-repository code is everything that happens with those ranges, so the
embedding takes the slice ranges as an explicit argument. -/

/-- The fixup loop of the private `Line::erase_and_insert_newline`,
walking the elements in reverse order (`i` from `len` down).  `isLast` is
true for the final element of the original list, which is preserved even
when empty; any other element that becomes empty is removed (`continue`,
skipping the break check).  The loop stops early, leaving all earlier
elements untouched, as soon as an updated element's start is at or after
the erased range's start.  The input and output lists are reversed. -/
def eaiFixupRev (rStart rStop : Nat) (delta : Int) :
    List LineElement → Bool → List LineElement
  | [], _ => []
  | e :: rest, isLast =>
    let e1 :=
      if e.stop ≥ rStop then
        { e with stop := ((e.stop : Int) + delta).toNat }
      else if e.stop > rStart then { e with stop := rStart }
      else e
    let e2 :=
      if e1.start ≥ rStop then
        { e1 with start := ((e1.start : Int) + delta).toNat }
      else if e1.start > rStart then { e1 with start := rStart }
      else e1
    if e2.stop ≤ e2.start then
      if isLast then
        -- preserve the last element, even if empty
        let e3 := { e2 with stop := e2.start }
        if e3.start ≥ rStart then e3 :: rest
        else e3 :: eaiFixupRev rStart rStop delta rest false
      else eaiFixupRev rStart rStop delta rest false
    else
      if e2.start ≥ rStart then e2 :: rest
      else e2 :: eaiFixupRev rStart rStop delta rest false

/-- The private `Line::erase_and_insert_newline`: replace the byte range
`[rStart, rStop)` of the text with a single newline and fix up the element
ranges. -/
def Line.eraseAndInsertNewline (l : Line) (rStart rStop : Nat) : Line :=
  let delta : Int := 1 - ((rStop : Int) - (rStart : Int))
  { text := replaceRange l.text rStart rStop ['\n'],
    elements := (eaiFixupRev rStart rStop delta l.elements.reverse
      true).reverse }

/-- The `edit_vec` computation of `wrap_to_width` for one natural line:
given the absolute byte ranges of the slices returned by `textwrap::wrap`,
collect the gaps between consecutive slices.  `curEnd` starts at the
natural line's start offset. -/
def wrapEditVec (curEnd : Nat) : List (Nat × Nat) → List (Nat × Nat)
  | [] => []
  | (s, e) :: rest =>
    if s = e then wrapEditVec curEnd rest
    else (if s ≠ 0 then [(curEnd, s)] else []) ++ wrapEditVec e rest

/-- Application of the collected edit ranges in reverse order; a range
immediately preceded by a newline byte is skipped. -/
def applyWrapEdits (l : Line) : List (Nat × Nat) → Line
  | [] => l
  | (s, e) :: rest =>
    let l' :=
      if s > 0 ∧ charAtByte l.text (s - 1) = some '\n' then l
      else l.eraseAndInsertNewline s e
    applyWrapEdits l' rest

/-- `Line::wrap_to_width` restricted to a line whose text contains no
newline, so that the whole text is a single natural line starting at
offset 0; `slices` is the list of absolute byte ranges of the borrowed
subslices returned by `textwrap::wrap(text, width)`. -/
def Line.wrapToWidthOneSegment (l : Line) (slices : List (Nat × Nat)) :
    Line :=
  applyWrapEdits l (wrapEditVec 0 slices).reverse

end Liso

namespace Liso

/-! ## History (src/history.rs) -/

/-- Embedding of `History`.  The `limit` and `autosave_interval` fields
are `NonZeroUsize` in Rust, modelled as `Nat` together with positivity
hypotheses where needed.  The autosave handler is an I/O closure taking
`&History`; it cannot change the stored lines, so it is not modelled and
`add_line`'s only error path (a failing autosave) does not occur here. -/
structure History where
  lines : List (List Char)
  limit : Option Nat
  stripDuplicates : Bool
  autosaveInterval : Option Nat
  linesSinceLastAutosave : Nat
deriving DecidableEq, Repr

/-- `History::new()`. -/
def History.new : History := ⟨[], some 100, true, none, 0⟩

/-- `History::add_line`: strip duplicates, enforce the limit by evicting
from the front, append, then count toward autosave. -/
def History.addLine (h : History) (line : List Char) : History :=
  let lines1 :=
    if h.stripDuplicates then h.lines.filter (fun x => x ≠ line)
    else h.lines
  let lines2 :=
    match h.limit with
    | some limit =>
      let lim := limit - 1
      if lines1.length > lim then lines1.drop (lines1.length - lim)
      else lines1
    | none => lines1
  let lines3 := lines2 ++ [line]
  let count :=
    match h.autosaveInterval with
    | some interval =>
      let c := h.linesSinceLastAutosave + 1
      if c ≥ interval then 0 else c
    | none => h.linesSinceLastAutosave
  { h with lines := lines3, linesSinceLastAutosave := count }

/-- Strip all trailing carriage returns
(Rust `while l.ends_with("\r") { l.pop(); }`). -/
def stripTrailingCRs (l : List Char) : List Char :=
  if l.getLast? = some '\r' then stripTrailingCRs l.dropLast else l
termination_by l.length
decreasing_by
  cases l with
  | nil => simp_all
  | cons a as => simp

/-- The per-line processing of `History::read_history_from`: a leading
byte-order mark is removed from the first line only, and trailing
carriage returns are removed from every line. -/
def readLinesProcess : Bool → List (List Char) → List (List Char)
  | _, [] => []
  | first, l :: ls =>
    let l1 :=
      if first ∧ l.head? = some (Char.ofNat 0xFEFF) then l.tail else l
    stripTrailingCRs l1 :: readLinesProcess false ls

/-- `History::read_history_from`, with the file contents given as the
list of its lines (the output of `BufRead::lines`).  It overwrites all
current history and changes no settings — in particular it does not
enforce `limit`. -/
def History.readHistoryFrom (h : History) (fileLines : List (List Char)) :
    History :=
  { h with lines := readLinesProcess true fileLines }

/-! ## Responses, requests, and the public `Output` methods
(src/lib.rs) -/

/-- Embedding of `Response` (the input event stream). -/
inductive Response where
  | Input (text : List Char)
  | Dead
  | Quit
  | Discarded (text : List Char)
  | Finish
  | Info
  | Break
  | Escape
  | Swap
  | Custom
  | Unknown (code : Nat)
deriving DecidableEq, Repr

/-- Embedding of `Request` (the worker's inbound queue).  Closures
(`SuspendAndRun`, `SetCompletor`) and the `Duration` of a notice carry no
state relevant to the claims and are dropped or reduced to placeholders. -/
inductive Request where
  | Output (line : Line)
  | OutputEcho (line : Line)
  | OutputWrapped (line : Line)
  | Status (line : Option Line)
  | Prompt (line : Option Line) (inputAllowed clearInput : Bool)
  | Notice (line : Line) (durationMs : Nat)
  | Bell
  | Die
  | RawInput (input : List Char)
  | Heartbeat
  | BumpHistory
  | Custom
deriving DecidableEq, Repr

/-- `Output::prompt` (src/lib.rs): converts its argument to a `Line` and
sends `Prompt { line: None, .. }` when the element list is empty,
otherwise `Some(line)`. -/
def outputPrompt (line : Line) (inputAllowed clearInput : Bool) : Request :=
  Request.Prompt
    (if line.elements.length = 0 then none else some line)
    inputAllowed clearInput

/-! ## Death reporting (src/lib.rs, claim C8) -/

/-- Largest `u32` value, for `u32::saturating_add`. -/
def u32Max : Nat := 4294967295

/-- `MAX_DEATH_COUNT` from src/lib.rs. -/
def MAX_DEATH_COUNT : Nat := 9

/-- `InputOutput::report_death`: saturating increment of `death_count`,
then panic when the new count has reached `MAX_DEATH_COUNT`.  The second
component records whether the call panicked. -/
def reportDeath (deathCount : Nat) : Nat × Bool :=
  let d := min (deathCount + 1) u32Max
  (d, decide (d ≥ MAX_DEATH_COUNT))

/-- The state after `n` consecutive `report_death` calls starting from a
fresh `InputOutput` (`death_count = 0`): final count, and whether any of
the calls panicked. -/
def repDeaths : Nat → Nat × Bool
  | 0 => (0, false)
  | n + 1 =>
    let p := repDeaths n
    let q := reportDeath p.1
    (q.1, p.2 || q.2)

/-- A read (`read_blocking`, `read_async`, `try_read`, …) that finds the
response channel closed: `report_death` runs first, so the read returns
`Response::Dead` only when that call did not panic. -/
def readWhenDead (deathCount : Nat) : Option (Response × Nat) :=
  let q := reportDeath deathCount
  if q.2 then none else some (Response.Dead, q.1)

end Liso

namespace Liso

/-! ## Worker editor state (src/worker.rs)

The `TtyState` fields relevant to the editor claims.  The terminal handle
(`term`), the channels, and the notice deadline (`Instant`, real time) are
not part of the state model; terminal side effects (bell, physical
clearing) are omitted, while their state effects (`rollout_needed`,
`remembered_output`) are kept.  Character display widths come from the
external `unicode_width` crate and are passed in as a function
`cw : Char → Nat` (`UnicodeWidthChar::width(ch).unwrap_or(0)`). -/

/-- Embedding of `RememberedOutput` (src/worker.rs). -/
structure RememberedOutput where
  outputLine : Line
  cursorPos : Option Nat
  cursorTop : Nat
  cursorLeft : Nat
deriving DecidableEq, Repr

/-- Embedding of the editor-relevant fields of `TtyState`. -/
structure EditorState where
  status : Option Line
  prompt : Option Line
  notice : Option Line
  input : List Char
  clipboard : List Char
  inputCursor : Nat
  inputAllowed : Bool
  rememberedOutput : Option RememberedOutput
  rolloutNeeded : Bool
  history : History
  curHistoryIndex : Option Nat
  orphanedNewInput : Option (List Char)
  historyOriginalLine : Option (List Char)
  consecutiveCompletionPresses : Nat
deriving DecidableEq, Repr

/-- Rust `char::is_whitespace`: the Unicode `White_Space` code points. -/
def isRustWhitespace (c : Char) : Bool :=
  let n := c.toNat
  (0x09 ≤ n && n ≤ 0x0D) || n = 0x20 || n = 0x85 || n = 0xA0
    || n = 0x1680 || (0x2000 ≤ n && n ≤ 0x200A) || n = 0x2028
    || n = 0x2029 || n = 0x202F || n = 0x205F || n = 0x3000

/-- `TtyState::cursor_on_invisible` at cursor position `i`: not at the
very start, and the character at `i` has zero display width. -/
def cursorOnInvisible (cw : Char → Nat) (text : List Char) (i : Nat) :
    Bool :=
  decide (0 < i) && decide (i < utf8Len text)
    && (match charAtByte text i with
        | some c => decide (cw c = 0)
        | none => false)

/-- `TtyState::cursor_on_invisible_or_space`. -/
def cursorOnInvisibleOrSpace (cw : Char → Nat) (text : List Char)
    (i : Nat) : Bool :=
  decide (0 < i) && decide (i < utf8Len text)
    && (match charAtByte text i with
        | some c => isRustWhitespace c || decide (cw c = 0)
        | none => false)

/-- `TtyState::cursor_on_invisible_or_nonspace`. -/
def cursorOnInvisibleOrNonspace (cw : Char → Nat) (text : List Char)
    (i : Nat) : Bool :=
  decide (0 < i) && decide (i < utf8Len text)
    && (match charAtByte text i with
        | some c => !isRustWhitespace c || decide (cw c = 0)
        | none => false)

/-- `TtyState::cursor_on_nonspace` (may be true at position 0). -/
def cursorOnNonspace (text : List Char) (i : Nat) : Bool :=
  decide (i < utf8Len text)
    && (match charAtByte text i with
        | some c => !isRustWhitespace c
        | none => false)

/-- The cursor-advance loop `while !self.input.is_char_boundary(i)
{ i += 1 }` after a character insertion.  Beyond the text length the
original loop would never terminate; such calls do not occur. -/
def advanceToBoundary (text : List Char) (i : Nat) : Nat :=
  if i < utf8Len text then
    if isBoundary text i then i else advanceToBoundary text (i + 1)
  else i
termination_by utf8Len text - i

/-- A forward skip loop `while !boundary(i) || cond(i) { i += 1 }`.  The
`cond` instantiations all imply `i < utf8Len text`, and a non-boundary
`i` below the length advances toward a boundary, so the loop always stops
at or before the text length when started at or before it. -/
def skipFwdLoop (text : List Char) (cond : Nat → Bool) (i : Nat) : Nat :=
  if i < utf8Len text then
    if !isBoundary text i || cond i then skipFwdLoop text cond (i + 1)
    else i
  else i
termination_by utf8Len text - i

/-- A backward skip loop `while !boundary(i) || cond(i) { i -= 1 }`.  At
`i = 0` the loop condition is false for every `cond` used (position 0 is
a boundary and each `cond` requires `0 < i`), so 0 is returned
directly. -/
def skipBackLoop (text : List Char) (cond : Nat → Bool) : Nat → Nat
  | 0 => 0
  | i + 1 =>
    if !isBoundary text (i + 1) || cond (i + 1) then
      skipBackLoop text cond i
    else i + 1

/-- State effects of `TtyState::rollin` (cursor movement and the screen
clear are terminal effects). -/
def rollinState (s : EditorState) : EditorState :=
  if s.rememberedOutput.isSome then
    { s with
      rolloutNeeded := true
      rememberedOutput := none }
  else s

/-- `TtyState::dismiss_notice`. -/
def dismissNotice (s : EditorState) : EditorState :=
  if s.notice.isSome then
    { s with
      rolloutNeeded := true
      notice := none }
  else s

/-- `TtyState::handle_char_input`. -/
def handleCharInput (s : EditorState) (ch : Char) : EditorState :=
  let input' := replaceRange s.input s.inputCursor s.inputCursor [ch]
  { s with
    rolloutNeeded := true
    notice := none
    input := input'
    inputCursor := advanceToBoundary input' (s.inputCursor + 1) }

/-- `TtyState::handle_right_arrow`. -/
def handleRightArrow (cw : Char → Nat) (s : EditorState) : EditorState :=
  let s := dismissNotice s
  if s.inputCursor < utf8Len s.input then
    { s with
      rolloutNeeded := true
      inputCursor := skipFwdLoop s.input (cursorOnInvisible cw s.input)
        (s.inputCursor + 1) }
  else s

/-- `TtyState::handle_left_arrow`. -/
def handleLeftArrow (cw : Char → Nat) (s : EditorState) : EditorState :=
  let s := dismissNotice s
  if s.inputCursor > 0 then
    { s with
      rolloutNeeded := true
      inputCursor := skipBackLoop s.input (cursorOnInvisible cw s.input)
        (s.inputCursor - 1) }
  else s

/-- `TtyState::handle_home`. -/
def handleHome (s : EditorState) : EditorState :=
  let s := dismissNotice s
  if s.inputCursor > 0 then
    { s with
      rolloutNeeded := true
      inputCursor := 0 }
  else s

/-- `TtyState::handle_end`. -/
def handleEnd (s : EditorState) : EditorState :=
  let s := dismissNotice s
  if s.inputCursor < utf8Len s.input then
    { s with
      rolloutNeeded := true
      inputCursor := utf8Len s.input }
  else s

/-- `TtyState::handle_discard`. -/
def handleDiscard (s : EditorState) : EditorState × List Response :=
  let s := dismissNotice s
  let input := s.input
  let s :=
    { s with
      input := ([] : List Char)
      curHistoryIndex := none
      orphanedNewInput := none
      historyOriginalLine := none }
  if input ≠ [] then
    ({ s with
       rolloutNeeded := true
       inputCursor := 0 },
     [Response.Discarded input])
  else (s, [Response.Discarded input])

/-- `TtyState::handle_clear` (the `clear_all_and_reset` terminal call is
an output effect). -/
def handleClear (s : EditorState) : EditorState :=
  let s := rollinState s
  { s with
    rolloutNeeded := true
    notice := none }

/-- `TtyState::handle_kill_to_end`. -/
def handleKillToEnd (s : EditorState) : EditorState :=
  let s := dismissNotice s
  if s.inputCursor < utf8Len s.input then
    { s with
      rolloutNeeded := true
      clipboard := dropBytes s.inputCursor s.input
      input := takeBytes s.inputCursor s.input }
  else s

/-- `TtyState::handle_kill_to_start`. -/
def handleKillToStart (s : EditorState) : EditorState :=
  let s := dismissNotice s
  if s.inputCursor > 0 then
    { s with
      rolloutNeeded := true
      clipboard := takeBytes s.inputCursor s.input
      input := dropBytes s.inputCursor s.input
      inputCursor := 0 }
  else s

/-- `TtyState::handle_yank`. -/
def handleYank (s : EditorState) : EditorState :=
  let s := dismissNotice s
  { s with
    rolloutNeeded := true
    input := replaceRange s.input s.inputCursor s.inputCursor s.clipboard
    inputCursor := s.inputCursor + utf8Len s.clipboard }

/-- `TtyState::handle_delete_back`. -/
def handleDeleteBack (cw : Char → Nat) (s : EditorState) : EditorState :=
  let s := dismissNotice s
  if s.inputCursor > 0 then
    let e := s.inputCursor
    let c := skipBackLoop s.input (cursorOnInvisible cw s.input)
      (s.inputCursor - 1)
    { s with
      rolloutNeeded := true
      input := replaceRange s.input c e []
      inputCursor := c }
  else s

/-- `TtyState::handle_delete_fore`. -/
def handleDeleteFore (cw : Char → Nat) (s : EditorState) : EditorState :=
  let s := dismissNotice s
  if s.inputCursor < utf8Len s.input then
    let st := s.inputCursor
    let j := skipFwdLoop s.input (cursorOnInvisible cw s.input)
      (s.inputCursor + 1)
    { s with
      rolloutNeeded := true
      input := replaceRange s.input st j []
      inputCursor := st }
  else s

/-- `TtyState::handle_delete_word`. -/
def handleDeleteWord (cw : Char → Nat) (s : EditorState) : EditorState :=
  let s := dismissNotice s
  if s.inputCursor > 0 then
    let e := s.inputCursor
    let i1 := skipBackLoop s.input (cursorOnInvisibleOrSpace cw s.input)
      (s.inputCursor - 1)
    let i3 :=
      if i1 > 0 then
        let i2 :=
          skipBackLoop s.input (cursorOnInvisibleOrNonspace cw s.input) i1
        if !cursorOnNonspace s.input i2 then
          skipFwdLoop s.input (cursorOnInvisible cw s.input) (i2 + 1)
        else i2
      else i1
    { s with
      rolloutNeeded := true
      input := replaceRange s.input i3 e []
      inputCursor := i3 }
  else s

/-- `TtyState::handle_return`.  With no autosave handler installed the
model's `add_line` cannot fail, so the error-notice path is absent. -/
def handleReturn (s : EditorState) : EditorState × List Response :=
  let input := s.input
  ({ s with
     rolloutNeeded := true
     notice := none
     input := ([] : List Char)
     inputCursor := 0
     curHistoryIndex := none
     orphanedNewInput := none
     historyOriginalLine := none
     history := s.history.addLine input },
   [Response.Input input])

/-- `TtyState::handle_finish` (Ctrl-D). -/
def handleFinish (s : EditorState) : EditorState × List Response :=
  if s.input = [] then (s, [Response.Finish])
  else
    ({ s with
       rolloutNeeded := true
       input := ([] : List Char)
       curHistoryIndex := none
       orphanedNewInput := none
       historyOriginalLine := none
       inputCursor := 0 }, [])

/-- `TtyState::history_prev`.  Out-of-range history indexing (possible in
Rust only with a stale index, where it panics) is modelled with a default
of the empty line. -/
def historyPrev (s : EditorState) : EditorState :=
  let lines := s.history.lines
  let prevIdx :=
    match s.curHistoryIndex with
    | none => if lines.length = 0 then none else some (lines.length - 1)
    | some x => if x > 0 then some (x - 1) else none
  let s' :=
    match prevIdx with
    | none => s -- just the bell, a terminal effect
    | some p =>
      { s with
        rolloutNeeded := true
        input := lines.getD p []
        orphanedNewInput :=
          if s.orphanedNewInput = none then some s.input
          else s.orphanedNewInput
        inputCursor := utf8Len (lines.getD p [])
        curHistoryIndex := some p }
  { s' with
    historyOriginalLine :=
      s'.curHistoryIndex.map (fun i => lines.getD i []) }

/-- `TtyState::history_next`.  The `assert!(orphaned_new_input.is_some())`
panic is modelled as `none`. -/
def historyNext (s : EditorState) : Option EditorState :=
  let lines := s.history.lines
  let step : Option EditorState :=
    match s.curHistoryIndex with
    | none => some s -- just the bell
    | some x =>
      if x + 1 = lines.length then
        match s.orphanedNewInput with
        | none => none
        | some orig =>
          some { s with
            rolloutNeeded := true
            input := orig
            orphanedNewInput := none
            inputCursor := utf8Len orig
            curHistoryIndex := none }
      else
        some { s with
          rolloutNeeded := true
          input := lines.getD (x + 1) []
          orphanedNewInput :=
            if s.orphanedNewInput = none then some s.input
            else s.orphanedNewInput
          inputCursor := utf8Len (lines.getD (x + 1) [])
          curHistoryIndex := some (x + 1) }
  step.map (fun s' =>
    { s' with
      historyOriginalLine :=
        s'.curHistoryIndex.map (fun i => lines.getD i []) })

/-- State effects of `TtyState::handle_suspend` (the rollout, suspend,
SIGSTOP and unsuspend are terminal/process effects; what remains is that
the remembered output is forgotten and a repaint is requested). -/
def handleSuspend (s : EditorState) : EditorState :=
  { s with
    rememberedOutput := none
    rolloutNeeded := true }

/-- Embedding of `Completion` (src/completion.rs). -/
inductive Completion where
  | InsertAtCursor (text : List Char)
  | ReplaceWholeLine (newLine : List Char) (newCursor : Nat)

/-- A completor, as a pure function of (input, cursor, consecutive
presses).  The `&Output` handle passed in Rust only lets the completor
produce output and is dropped. -/
def Completor : Type := List Char → Nat → Nat → Option Completion

/-- Application of `Completion::InsertAtCursor` inside
`TtyState::handle_completion`. -/
def completionInsertAtCursor (s : EditorState) (text : List Char) :
    EditorState :=
  if text ≠ [] then
    { s with
      rolloutNeeded := true
      input := replaceRange s.input s.inputCursor s.inputCursor text
      inputCursor := s.inputCursor + utf8Len text }
  else s

/-- Application of `Completion::ReplaceWholeLine` inside
`TtyState::handle_completion`; an out-of-range cursor panics (`none`).
The cursor is only range-checked, not boundary-checked. -/
def completionReplaceWholeLine (s : EditorState) (newLine : List Char)
    (newCursor : Nat) : Option EditorState :=
  if newCursor > utf8Len newLine then none
  else if newLine ≠ s.input ∨ newCursor ≠ s.inputCursor then
    some { s with
      rolloutNeeded := true
      input := newLine
      inputCursor := newCursor }
  else some s

/-- `TtyState::handle_completion`.  The `NonZeroU32::new(..).unwrap()` on
the consecutive-press counter panics when the counter is zero (never the
case when dispatched from a key). -/
def handleCompletion (comp : Option Completor) (s : EditorState) :
    Option EditorState :=
  match comp with
  | none => some s
  | some f =>
    if s.consecutiveCompletionPresses = 0 then none
    else
      match f s.input s.inputCursor s.consecutiveCompletionPresses with
      | none => some s
      | some (Completion.InsertAtCursor text) =>
        some (completionInsertAtCursor s text)
      | some (Completion.ReplaceWholeLine nl nc) =>
        completionReplaceWholeLine s nl nc

end Liso

namespace Liso

/-! ## Input dispatch (`TtyState::handle_input`, `handle_event`) -/

/-- The body of `handle_input`'s per-character loop: updates the
consecutive-completion-press counter, then dispatches on the character
exactly as the Rust `match`. -/
def handleRawChar (cw : Char → Nat) (comp : Option Completor)
    (s : EditorState) (ch : Char) :
    Option (EditorState × List Response) :=
  let s :=
    if ch = '\t' then
      { s with
        consecutiveCompletionPresses :=
          min (s.consecutiveCompletionPresses + 1) u32Max }
    else { s with consecutiveCompletionPresses := 0 }
  if ch = Char.ofNat 0x01 then some (handleHome s, [])
  else if ch = Char.ofNat 0x02 then some (handleLeftArrow cw s, [])
  else if ch = Char.ofNat 0x03 then some (s, [Response.Quit])
  else if ch = Char.ofNat 0x04 then some (handleFinish s)
  else if ch = Char.ofNat 0x05 then some (handleEnd s, [])
  else if ch = Char.ofNat 0x06 then some (handleRightArrow cw s, [])
  else if ch = Char.ofNat 0x07 then some (handleDiscard s)
  else if ch = Char.ofNat 0x0B then some (handleKillToEnd s, [])
  else if ch = Char.ofNat 0x0C then some (handleClear s, [])
  else if ch = Char.ofNat 0x0E then
    (historyNext s).map (fun s' => (s', []))
  else if ch = Char.ofNat 0x10 then some (historyPrev s, [])
  else if ch = Char.ofNat 0x14 then some (s, [Response.Info])
  else if ch = Char.ofNat 0x15 then some (handleKillToStart s, [])
  else if ch = Char.ofNat 0x17 then some (handleDeleteWord cw s, [])
  else if ch = Char.ofNat 0x18 then some (s, [Response.Swap])
  else if ch = Char.ofNat 0x19 then some (handleYank s, [])
  else if ch = Char.ofNat 0x1A then some (handleSuspend s, [])
  else if ch = '\t' then (handleCompletion comp s).map (fun s' => (s', []))
  else if ch = Char.ofNat 0x1B then some (s, [Response.Escape])
  else if ch = Char.ofNat 0x1C then some (s, [Response.Break])
  else if ch = '\n' ∨ ch = '\r' then some (handleReturn s)
  else if ch = Char.ofNat 0x08 ∨ ch = Char.ofNat 0x7F then
    some (handleDeleteBack cw s, [])
  else if ch.toNat ≤ 0x1F ∨ (0x80 ≤ ch.toNat ∧ ch.toNat ≤ 0x9F) then
    some (s, [Response.Unknown ch.toNat])
  else some (handleCharInput s ch, [])

/-- The character loop of `handle_input`, accumulating emitted
responses; a panic in any handler aborts the whole call. -/
def handleInputGo (cw : Char → Nat) (comp : Option Completor) :
    EditorState → List Response → List Char →
    Option (EditorState × List Response)
  | s, acc, [] => some (s, acc)
  | s, acc, c :: cs =>
    match handleRawChar cw comp s c with
    | none => none
    | some (s', rs) => handleInputGo cw comp s' (acc ++ rs) cs

/-- `TtyState::handle_input`: a no-op unless input is allowed. -/
def handleInput (cw : Char → Nat) (comp : Option Completor)
    (s : EditorState) (input : List Char) :
    Option (EditorState × List Response) :=
  if !s.inputAllowed then some (s, [])
  else handleInputGo cw comp s [] input

/-- Embedding of `crossterm::event::KeyCode`, restricted to the codes the
worker distinguishes. -/
inductive KeyCode where
  | Char (c : Char)
  | Tab
  | Esc
  | Enter
  | Backspace
  | Delete
  | Up
  | Down
  | Left
  | Right
  | Home
  | End
  | other
deriving DecidableEq, Repr

/-- Embedding of `crossterm::event::Event`; a key event carries whether
the CONTROL modifier is held. -/
inductive Event where
  | Key (ctrl : Bool) (code : KeyCode)
  | Resize
  | Mouse
  | FocusGained
  | FocusLost
  | Paste
deriving DecidableEq, Repr

/-- `TtyState::handle_event`: a no-op unless input is allowed; `Paste` is
`unreachable!` (modelled as `none`). -/
def handleEvent (cw : Char → Nat) (comp : Option Completor)
    (s : EditorState) (e : Event) :
    Option (EditorState × List Response) :=
  if !s.inputAllowed then some (s, [])
  else
    match e with
    | Event.Resize => some (rollinState s, [])
    | Event.Mouse => some (s, [])
    | Event.FocusGained => some (s, [])
    | Event.FocusLost => some (s, [])
    | Event.Paste => none
    | Event.Key ctrl code =>
      if ctrl then
        let s :=
          if code = KeyCode.Char 'i' then
            { s with
              consecutiveCompletionPresses :=
                min (s.consecutiveCompletionPresses + 1) u32Max }
          else { s with consecutiveCompletionPresses := 0 }
        match code with
        | KeyCode.Char 'a' => some (handleHome s, [])
        | KeyCode.Char 'b' => some (handleLeftArrow cw s, [])
        | KeyCode.Char 'c' => some (s, [Response.Quit])
        | KeyCode.Char 'd' => some (handleFinish s)
        | KeyCode.Char 'e' => some (handleEnd s, [])
        | KeyCode.Char 'f' => some (handleRightArrow cw s, [])
        | KeyCode.Char 'g' => some (handleDiscard s)
        | KeyCode.Char 'k' => some (handleKillToEnd s, [])
        | KeyCode.Char 'l' => some (handleClear s, [])
        | KeyCode.Char 'n' => (historyNext s).map (fun s' => (s', []))
        | KeyCode.Char 'p' => some (historyPrev s, [])
        | KeyCode.Char 't' => some (s, [Response.Info])
        | KeyCode.Char 'u' => some (handleKillToStart s, [])
        | KeyCode.Char 'w' => some (handleDeleteWord cw s, [])
        | KeyCode.Char 'x' => some (s, [Response.Swap])
        | KeyCode.Char 'y' => some (handleYank s, [])
        | KeyCode.Char 'z' => some (handleSuspend s, [])
        | KeyCode.Char '\\' => some (s, [Response.Break])
        | KeyCode.Char 'i' =>
          (handleCompletion comp s).map (fun s' => (s', []))
        | KeyCode.Char 'j' => some (handleReturn s)
        | KeyCode.Char 'm' => some (handleReturn s)
        | KeyCode.Char x =>
          if 0x40 ≤ x.toNat ∧ x.toNat ≤ 0x7E then
            some (s, [Response.Unknown (x.toNat % 32)])
          else some (s, [])
        | _ => some (s, [])
      else
        let s :=
          if code = KeyCode.Tab then
            { s with
              consecutiveCompletionPresses :=
                min (s.consecutiveCompletionPresses + 1) u32Max }
          else { s with consecutiveCompletionPresses := 0 }
        match code with
        | KeyCode.Char ch =>
          if !isRustControl ch ∧ ch ≠ Char.ofNat 0x2028
              ∧ ch ≠ Char.ofNat 0x2029 then
            some (handleCharInput s ch, [])
          else some (s, [])
        | KeyCode.Tab => (handleCompletion comp s).map (fun s' => (s', []))
        | KeyCode.Esc => some (s, [Response.Escape])
        | KeyCode.Enter => some (handleReturn s)
        | KeyCode.Backspace => some (handleDeleteBack cw s, [])
        | KeyCode.Delete => some (handleDeleteFore cw s, [])
        | KeyCode.Up => some (historyPrev s, [])
        | KeyCode.Down => (historyNext s).map (fun s' => (s', []))
        | KeyCode.Left => some (handleLeftArrow cw s, [])
        | KeyCode.Right => some (handleRightArrow cw s, [])
        | KeyCode.Home => some (handleHome s, [])
        | KeyCode.End => some (handleEnd s, [])
        | KeyCode.other => some (s, [])

end Liso

namespace Liso

/-! ## LineChar and the Line character iterator (src/line.rs) -/

/-- Embedding of `LineChar`. -/
structure LineChar where
  index : Nat
  ch : Char
  style : Style
  fg : Option Color
  bg : Option Color
deriving DecidableEq, Repr

/-- The `PartialEq` of `LineChar`, which ignores the byte index. -/
def lcEq (a b : LineChar) : Bool :=
  a.ch = b.ch && a.style = b.style && a.fg = b.fg && a.bg = b.bg

/-- `LineChar::endfills_same_as`. -/
def lcEndfillsSameAs (a b : LineChar) : Bool :=
  if a.style.underline ≠ b.style.underline then false
  else if a.style.inverse ≠ b.style.inverse then false
  else if a.style.inverse then
    if a.style.underline ∧ a.bg ≠ b.bg then false else a.fg = b.fg
  else if a.style.underline ∧ a.fg ≠ b.fg then false
  else a.bg = b.bg

/-- The body of `LineCharIterator::next`, iterated: `cur_element` is
advanced past elements ending at or before the current index (modelled by
dropping them), and the current element's attributes are attached.  A
line whose elements do not cover its text panics in Rust (index out of
bounds); the model substitutes a plain element. -/
def lineCharsGo (elements : List LineElement) (idx : Nat) :
    List Char → List LineChar
  | [] => []
  | c :: cs =>
    let elements' := elements.dropWhile (fun e => e.stop ≤ idx)
    let e := elements'.headD ⟨Style.PLAIN, none, none, 0, 0⟩
    ⟨idx, c, e.style, e.fg, e.bg⟩ :: lineCharsGo elements' (idx + c.utf8Size) cs

/-- `Line::chars()` as a list. -/
def Line.lineChars (l : Line) : List LineChar := lineCharsGo l.elements 0 l.text

/-! ## The differential renderer (`TtyState::output_line_changes`,
src/worker.rs)

Terminal output is modelled as a trace of abstract operations (the `Term`
trait methods the renderer emits). -/

/-- One abstract terminal operation. -/
inductive TermOp where
  | setAttrs (style : Style) (fg bg : Option Color)
  | printChar (c : Char)
  | printStr (text : List Char)
  | printSpaces (n : Nat)
  | newline
  | carriageReturn
  | clearToEndOfLine
  | clearForwardAndReset
  | moveUp (n : Nat)
  | moveDown (n : Nat)
  | moveLeft (n : Nat)
  | moveRight (n : Nat)
deriving DecidableEq, Repr

/-- The local state of one `output_line_changes` call: the attribute
last sent to the terminal, the simulated cursor (`cur_column`,
`cur_breaks`), the real cursor (`real_column`, `real_breaks`), the
recorded cursor target (`output_cursor_left` / `output_cursor_top`), the
`implied_newline` and `endfill_redundant` flags, and the emitted
operation trace. -/
structure RolloutSt where
  curAttr : Style × Option Color × Option Color
  curColumn : Nat
  curBreaks : Nat
  realColumn : Nat
  realBreaks : Nat
  outLeft : Option Nat
  outTop : Option Nat
  impliedNewline : Bool
  endfillRedundant : Bool
  trace : List TermOp
deriving DecidableEq, Repr

/-- Append one terminal operation to the trace. -/
def emit (st : RolloutSt) (op : TermOp) : RolloutSt :=
  { st with trace := st.trace ++ [op] }

/-- `TtyState::maybe_report`: when the current index is the cursor
target, record the simulated cursor, clamping the column to the
terminal width. -/
def maybeReport (width : Nat) (cursorPos : Option Nat) (index : Nat)
    (st : RolloutSt) : RolloutSt :=
  match cursorPos with
  | none => st
  | some cp =>
    if index = cp then
      if st.curColumn ≥ width then
        { st with
          outLeft := some width
          outTop := some st.curBreaks }
      else
        { st with
          outLeft := some st.curColumn
          outTop := some st.curBreaks }
    else st

/-- `TtyState::reconcile_cursors`: move the real cursor to the simulated
cursor `(cc, cb)` with relative motions, clamping columns to the width
(a column of `width` is shown as `width - 1` with pending wrap). -/
def reconcile (width : Nat) (cc cb : Nat) (st : RolloutSt) : RolloutSt :=
  let ccClamped := min cc width
  let rcClamped := min st.realColumn width
  let ccShown := min ccClamped (width - 1)
  let rcShown := min rcClamped (width - 1)
  let st :=
    if st.realBreaks ≠ cb then
      let st :=
        if st.realBreaks < cb then emit st (TermOp.moveDown (cb - st.realBreaks))
        else emit st (TermOp.moveUp (st.realBreaks - cb))
      { st with realBreaks := cb }
    else st
  if rcShown ≠ ccShown then
    let st :=
      if rcShown < ccShown then emit st (TermOp.moveRight (ccShown - rcShown))
      else emit st (TermOp.moveLeft (rcShown - ccShown))
    { st with realColumn := ccClamped }
  else { st with realColumn := rcClamped }

/-- The wrap check shared by the tail of `TtyState::output_char`: when a
visible character passed the last column, or the character was a
newline, pad or clear to the edge and emit a line break. -/
def outputCharWrap (width : Nat) (w : Nat) (ch : Char) (st : RolloutSt) :
    RolloutSt :=
  if (w > 0 ∧ st.curColumn ≥ width) ∨ ch = '\n' then
    let st :=
      if st.curColumn < width then
        if st.curAttr.1.inverse || st.curAttr.1.underline
            || st.curAttr.2.2.isSome then
          emit st (TermOp.printSpaces (width - st.curColumn))
        else emit st TermOp.clearToEndOfLine
      else st
    let st := emit st TermOp.newline
    { st with
      impliedNewline := ch ≠ '\n'
      curBreaks := st.curBreaks + 1
      curColumn := 0 }
  else st

/-- `TtyState::output_char`. -/
def outputChar (width : Nat) (cw : Char → Nat) (lc : LineChar)
    (st : RolloutSt) : RolloutSt :=
  let st :=
    if (lc.style, lc.fg, lc.bg) ≠ st.curAttr then
      { emit st (TermOp.setAttrs lc.style lc.fg lc.bg) with
        curAttr := (lc.style, lc.fg, lc.bg) }
    else st
  let w := cw lc.ch
  if lc.ch ≠ '\n' then
    let st :=
      { emit st (TermOp.printChar lc.ch) with
        curColumn := st.curColumn + w
        impliedNewline := false }
    outputCharWrap width w lc.ch st
  else if st.impliedNewline then { st with impliedNewline := false }
  else outputCharWrap width w lc.ch st

/-- `TtyState::sim_output_char`: the cursor simulation of `output_char`
without terminal output or attribute changes. -/
def simOutputChar (width : Nat) (cw : Char → Nat) (lc : LineChar)
    (st : RolloutSt) : RolloutSt :=
  let w := cw lc.ch
  let step := fun (st : RolloutSt) =>
    if (w > 0 ∧ st.curColumn ≥ width) ∨ lc.ch = '\n' then
      { st with
        curBreaks := st.curBreaks + 1
        curColumn := 0
        impliedNewline := lc.ch ≠ '\n' }
    else st
  if lc.ch ≠ '\n' then
    step { st with curColumn := st.curColumn + w, impliedNewline := false }
  else if st.impliedNewline then { st with impliedNewline := false }
  else step st

/-- The main loop of `output_line_changes`, walking old and new character
streams in lockstep.  `old? = none` both for a fresh paint and after the
old stream is abandoned on a newline mismatch; in those cases each new
character is reported, reconciled and emitted (the Rust `(None, Some b)`
arm and the trailing `for` loop, whose bodies are identical except that
the former clears `endfill_redundant`, which the model re-clears
idempotently).  Returns the final state and `ended_simultaneously`. -/
def olcLoop (width : Nat) (cw : Char → Nat) (cursorPos : Option Nat) :
    Option (List LineChar) → List LineChar → RolloutSt →
    RolloutSt × Bool
  | old?, [], st =>
    match old? with
    | some (_ :: _) =>
      let st := reconcile width st.curColumn st.curBreaks st
      let st :=
        if st.realColumn = width ∧ st.curColumn + 1 = width then
          emit st (TermOp.printSpaces 1)
        else if st.curColumn = width then
          let st := emit (emit st TermOp.newline) TermOp.clearForwardAndReset
          let st := { st with realColumn := 0, realBreaks := st.realBreaks + 1 }
          reconcile width st.curColumn st.curBreaks st
        else emit st TermOp.clearForwardAndReset
      ({ st with endfillRedundant := false }, false)
    | _ => (st, true)
  | old?, b :: bs, st =>
    match old? with
    | some (a :: as_) =>
      let st := maybeReport width cursorPos b.index st
      if lcEq a b then olcLoop width cw cursorPos (some as_) bs
        (simOutputChar width cw b st)
      else
        let st := reconcile width st.curColumn st.curBreaks st
        if (a.ch = '\n') ≠ (b.ch = '\n') then
          let st :=
            { emit st TermOp.clearForwardAndReset with
              curAttr := (Style.PLAIN, none, none) }
          let st := outputChar width cw b st
          let st :=
            { st with
              realColumn := st.curColumn
              realBreaks := st.curBreaks
              endfillRedundant := lcEndfillsSameAs a b }
          olcLoop width cw cursorPos none bs st
        else
          let st := outputChar width cw b st
          let st :=
            { st with
              realColumn := st.curColumn
              realBreaks := st.curBreaks
              endfillRedundant := lcEndfillsSameAs a b }
          olcLoop width cw cursorPos (some as_) bs st
    | _ =>
      let st := maybeReport width cursorPos b.index st
      let st := reconcile width st.curColumn st.curBreaks st
      let st := outputChar width cw b st
      let st :=
        { st with
          realColumn := st.curColumn
          realBreaks := st.curBreaks
          endfillRedundant := false }
      olcLoop width cw cursorPos none bs st

/-- The endfill step at the end of `output_line_changes`: unless the
streams ended simultaneously with a redundant endfill, pad the final
element's visible background to the right edge. -/
def trailitBlock (width : Nat) (newLine : Line) (endfill : Bool)
    (endedSim : Bool) (st : RolloutSt) : RolloutSt :=
  if ¬endedSim ∨ ¬st.endfillRedundant then
    let trailit := endfill
      && (match newLine.elements.getLast? with
          | none => false
          | some el =>
            el.style.inverse || el.style.underline || el.bg.isSome)
    if trailit && decide (st.curColumn < width) then
      match newLine.elements.getLast? with
      | some last =>
        let st := reconcile width st.curColumn st.curBreaks st
        let st := emit st (TermOp.setAttrs last.style last.fg last.bg)
        let st := emit st (TermOp.printSpaces (width - st.curColumn))
        { st with curColumn := width, realColumn := width }
      | none => st
    else st
  else st

/-- The optional trailing line break of `output_line_changes`. -/
def breakAfterBlock (width : Nat) (breakAfter endfill : Bool)
    (st : RolloutSt) : RolloutSt :=
  if breakAfter ∧ ¬st.impliedNewline then
    let st :=
      if ¬endfill ∧ st.curColumn ≠ width then
        emit st TermOp.clearToEndOfLine
      else st
    { emit st TermOp.newline with
      curColumn := 0
      curBreaks := st.curBreaks + 1 }
  else st

/-- Everything `output_line_changes` does after the lockstep walk: the
end-of-string cursor report, the endfill, the optional trailing break,
the cursor target computation, the final reconciliation and the
cursor-past-the-breaks special case. -/
def olcEpilogue (width : Nat) (newLine : Line) (cursorPos : Option Nat)
    (breakAfter endfill : Bool) (loopRes : RolloutSt × Bool) :
    RememberedOutput × RolloutSt :=
  let st := maybeReport width cursorPos (utf8Len newLine.text) loopRes.1
  let st := trailitBlock width newLine endfill loopRes.2 st
  let st := emit st (TermOp.setAttrs Style.PLAIN none none)
  let st := breakAfterBlock width breakAfter endfill st
  let cursorLeft := st.outLeft.getD st.curColumn
  let cursorTop := st.outTop.getD st.curBreaks
  let st := reconcile width cursorLeft cursorTop st
  let st :=
    if cursorTop > st.curBreaks then
      -- Rust asserts cur_breaks + 1 = cursor_top here
      let st := emit st TermOp.newline
      if endfill then
        emit (emit st (TermOp.printSpaces width)) TermOp.carriageReturn
      else st
    else st
  (⟨newLine, cursorPos, cursorTop, cursorLeft⟩, st)

/-- The non-short-circuit path of `TtyState::output_line_changes`: the
lockstep walk followed by the epilogue.  Returns the new
`RememberedOutput` together with the final internal state (whose
`curBreaks` is the number of line breaks the rendered composite spans and
whose `trace` is everything emitted). -/
def outputLineChangesCore (width : Nat) (cw : Char → Nat)
    (remembered : Option RememberedOutput) (newLine : Line)
    (cursorPos : Option Nat) (breakAfter endfill : Bool) :
    RememberedOutput × RolloutSt :=
  let rcrb :=
    match remembered with
    | some rem => (rem.cursorLeft, rem.cursorTop)
    | none => (0, 0)
  let old? := remembered.map (fun rem => rem.outputLine.lineChars)
  let st0 : RolloutSt :=
    { curAttr := (Style.PLAIN, none, none)
      curColumn := 0
      curBreaks := 0
      realColumn := rcrb.1
      realBreaks := rcrb.2
      outLeft := none
      outTop := none
      impliedNewline := false
      endfillRedundant := false
      trace := [] }
  olcEpilogue width newLine cursorPos breakAfter endfill
    (olcLoop width cw cursorPos old? newLine.lineChars st0)

/-- `TtyState::output_line_changes`, including the initial
nothing-changed short circuit. -/
def outputLineChanges (width : Nat) (cw : Char → Nat)
    (remembered : Option RememberedOutput) (newLine : Line)
    (cursorPos : Option Nat) (breakAfter endfill : Bool) :
    RememberedOutput × List TermOp :=
  match remembered with
  | some rem =>
    if newLine = rem.outputLine ∧ cursorPos = rem.cursorPos then (rem, [])
    else
      let r := outputLineChangesCore width cw remembered newLine cursorPos
        breakAfter endfill
      (r.1, r.2.trace)
  | none =>
    let r := outputLineChangesCore width cw remembered newLine cursorPos
      breakAfter endfill
    (r.1, r.2.trace)

/-- The number of physical line breaks the composite spans after a core
rollout: the simulated break count, plus the extra newline of the
cursor-past-the-breaks special case when it fires. -/
def compositeBreaks (r : RememberedOutput × RolloutSt) : Nat :=
  if r.1.cursorTop > r.2.curBreaks then r.2.curBreaks + 1 else r.2.curBreaks

end Liso

namespace Liso

/-! ## Test fixtures shared by several claims -/

/-- A concrete editor state for scenario claims: empty composite, input
allowed, empty 100-entry history. -/
def baseEditor (input : List Char) (cursor : Nat) : EditorState :=
  { status := none
    prompt := none
    notice := none
    input := input
    clipboard := []
    inputCursor := cursor
    inputAllowed := true
    rememberedOutput := none
    rolloutNeeded := false
    history := ⟨[], some 100, true, none, 0⟩
    curHistoryIndex := none
    orphanedNewInput := none
    historyOriginalLine := none
    consecutiveCompletionPresses := 0 }

/-- A display-width function agreeing with `unicode_width` on the
characters used in the scenarios: combining marks are zero columns,
newline is zero, everything else here is one column. -/
def cwDemo : Char → Nat :=
  fun c => if c.toNat = 0x301 ∨ c = '\n' then 0 else 1

/-! ## C10: an empty prompt is prompt removal -/

/-- C10: every argument to `Output::prompt` that converts to a `Line`
with an empty element list — in particular the empty string — is sent as
`Prompt { line: None, .. }` with the `input_allowed` and `clear_input`
flags passed through unchanged. -/
theorem c10_empty_prompt_sends_none (l : Line) (ia ci : Bool)
    (h : l.elements = []) :
    outputPrompt l ia ci = Request.Prompt none ia ci ∧
    outputPrompt (Line.fromStr []) ia ci = Request.Prompt none ia ci := by
  constructor
  · simp [outputPrompt, h]
  · rfl

/-- Witness for C10 at the empty line and concrete flags. -/
theorem c10_empty_prompt_sends_none_witness :
    outputPrompt Line.new true false = Request.Prompt none true false ∧
    outputPrompt (Line.fromStr []) true false
      = Request.Prompt none true false :=
  c10_empty_prompt_sends_none Line.new true false rfl

/-! ## C8: tolerated `Dead` reports before the runaway-bug panic -/

/-- C8 counterexample: the claim says reporting `Dead` up to 9 times does
not panic, but the 9th consecutive `report_death` call (death_count
reaching `MAX_DEATH_COUNT`) already panics. -/
theorem c8_ninth_death_report_panics_cex : (repDeaths 9).2 = true := by
  decide

/-- C8 (amended): a read after worker death returns `Response::Dead`, up
to 8 consecutive `Dead` reports are tolerated, and the 9th panics. -/
theorem c8_death_reports_tolerated :
    readWhenDead 0 = some (Response.Dead, 1) ∧
    (repDeaths 8).2 = false ∧ (repDeaths 9).2 = true := by
  decide

/-! ## C7: the history limit -/

/-- C7 counterexample: `read_history_from` replaces the stored lines
without enforcing the limit, so a `History` with `limit = Some(1)` holds
2 lines after loading a 2-line file. -/
theorem c7_read_history_ignores_limit_cex :
    ¬ ((History.readHistoryFrom ⟨[], some 1, true, none, 0⟩
        [['a'], ['b']]).lines.length ≤ 1) ∧
    (History.readHistoryFrom ⟨[], some 1, true, none, 0⟩
        [['a'], ['b']]).limit = some 1 := by
  decide

/-- C7 (amended): for a `History` with `limit = Some(N)` (`N` positive,
as `NonZeroUsize` guarantees), `add_line` leaves at most `N` lines; the
new line is appended at the back, and the result is a suffix of the
duplicate-stripped old lines plus the new line, i.e. duplicate stripping
happens first and eviction removes only from the front. -/
theorem c7_add_line_enforces_limit (h : History) (line : List Char)
    (N : Nat) (hlim : h.limit = some N) (hpos : 0 < N) :
    (h.addLine line).lines.length ≤ N ∧
    (h.addLine line).lines.getLast? = some line ∧
    (h.addLine line).lines <:+
      ((if h.stripDuplicates then h.lines.filter (fun x => x ≠ line)
        else h.lines) ++ [line]) := by
  have main : ∀ L1 : List (List Char),
      (((if L1.length > N - 1 then L1.drop (L1.length - (N - 1)) else L1)
          ++ [line]).length ≤ N)
      ∧ (((if L1.length > N - 1 then L1.drop (L1.length - (N - 1))
            else L1) ++ [line]).getLast? = some line)
      ∧ (((if L1.length > N - 1 then L1.drop (L1.length - (N - 1))
            else L1) ++ [line]) <:+ (L1 ++ [line])) := by
    intro L1
    refine ⟨?_, List.getLast?_concat _, ?_⟩
    · split
      · simp only [List.length_append, List.length_drop,
          List.length_cons, List.length_nil]
        omega
      · simp only [List.length_append, List.length_cons, List.length_nil]
        omega
    · split
      · obtain ⟨t, ht⟩ := List.drop_suffix (L1.length - (N - 1)) L1
        exact ⟨t, by rw [← List.append_assoc, ht]⟩
      · exact List.suffix_refl _
  simp only [History.addLine, hlim]
  exact main (if h.stripDuplicates = true then
    List.filter (fun x => decide (x ≠ line)) h.lines else h.lines)

/-- Witness for C7 at a concrete over-full history. -/
theorem c7_add_line_enforces_limit_witness :
    ((History.addLine ⟨[['a']], some 1, true, none, 0⟩ ['b']).lines.length
      ≤ 1) ∧
    (History.addLine ⟨[['a']], some 1, true, none, 0⟩
      ['b']).lines.getLast? = some ['b'] ∧
    (History.addLine ⟨[['a']], some 1, true, none, 0⟩ ['b']).lines <:+
      ((if (⟨[['a']], some 1, true, none, 0⟩ : History).stripDuplicates
        then (⟨[['a']], some 1, true, none, 0⟩ : History).lines.filter
          (fun x => x ≠ ['b'])
        else (⟨[['a']], some 1, true, none, 0⟩ : History).lines)
        ++ [['b']]) :=
  c7_add_line_enforces_limit ⟨[['a']], some 1, true, none, 0⟩ ['b'] 1 rfl
    (by decide)

/-! ## C2: the element-range invariant and `wrap_to_width` -/

/-- C2 (code bug): the fixup loop of `erase_and_insert_newline` stops as
soon as an updated element starts at or after the erased range, leaving
every earlier element stale.  Wrapping the line built as
`add_text("word "); set_style(BOLD); add_text(" word2")` to width 5
(where `textwrap::wrap` returns the borrowed slices `"word"` at bytes
`[0,4)` and `"word2"` at `[6,11)`, so the gap `[4,6)` is erased) yields
elements `[0,5)` and `[4,10)`: they overlap, the first element's stop no
longer equals the second's start, and the invariant is violated. -/
theorem c2_wrap_to_width_breaks_invariant :
    lineInv (((Line.new.addText "word ".toList).setStyle
      Style.BOLD).addText " word2".toList) = true ∧
    (((Line.new.addText "word ".toList).setStyle Style.BOLD).addText
        " word2".toList).wrapToWidthOneSegment [(0, 4), (6, 11)]
      = ⟨"word\nword2".toList,
         [⟨Style.PLAIN, none, none, 0, 5⟩,
          ⟨Style.BOLD, none, none, 4, 10⟩]⟩ ∧
    lineInv ((((Line.new.addText "word ".toList).setStyle
      Style.BOLD).addText " word2".toList).wrapToWidthOneSegment
        [(0, 4), (6, 11)]) = false := by
  decide

/-! ## C5: keys that leave a notice in place -/

/-- C5 (code bug): with a notice displayed and input allowed, handling
the raw input character Ctrl-C emits `Quit` but does not withdraw the
notice — `handle_input`'s Ctrl-C arm never touches `self.notice`, so the
notice is still displayed on the next repaint, contradicting the claim
(and the crate documentation) that any keypress dismisses a notice. -/
theorem c5_ctrl_c_keeps_notice_cex :
    (handleInput cwDemo none
        { baseEditor [] 0 with notice := some (Line.fromStr "n".toList) }
        [Char.ofNat 0x03]).map
      (fun r => (r.1.notice, r.2))
    = some (some (Line.fromStr "n".toList), [Response.Quit]) := by
  decide

/-! ## C9: no input allowed means no effect -/

/-- C9: when `input_allowed` is false, `handle_input` and `handle_event`
return immediately: the editor state is unchanged (input, cursor,
clipboard, notice, history selection and all other fields) and no
response of any kind is emitted, for every raw input string and every
event, including Ctrl-C, Ctrl-D, Escape and Enter. -/
theorem c9_input_not_allowed_is_noop (cw : Char → Nat)
    (comp : Option Completor) (s : EditorState) (input : List Char)
    (e : Event) (h : s.inputAllowed = false) :
    handleInput cw comp s input = some (s, []) ∧
    handleEvent cw comp s e = some (s, []) := by
  constructor
  · simp [handleInput, h]
  · simp [handleEvent, h]

/-- Witness for C9 at a concrete disabled state, with Enter in the raw
input and Ctrl-C as the key event. -/
theorem c9_input_not_allowed_is_noop_witness :
    handleInput cwDemo none { baseEditor ['x'] 1 with inputAllowed := false }
      ['\n'] = some ({ baseEditor ['x'] 1 with inputAllowed := false }, [])
    ∧ handleEvent cwDemo none
      { baseEditor ['x'] 1 with inputAllowed := false }
      (Event.Key true (KeyCode.Char 'c'))
      = some ({ baseEditor ['x'] 1 with inputAllowed := false }, []) :=
  c9_input_not_allowed_is_noop cwDemo none
    { baseEditor ['x'] 1 with inputAllowed := false } ['\n']
    (Event.Key true (KeyCode.Char 'c')) rfl

end Liso

namespace Liso

/-! ## C6: history navigation -/

/-- The scenario state: history `["ls", "cat f", "grep x"]` and
in-progress input `"foo"` with nothing selected. -/
def historyDemoState : EditorState :=
  { baseEditor "foo".toList 3 with
    history := ⟨["ls".toList, "cat f".toList, "grep x".toList],
      some 100, true, none, 0⟩ }

/-- The scenario state after three history-previous operations. -/
def demoPrev3 : EditorState :=
  historyPrev (historyPrev (historyPrev historyDemoState))

/-- The scenario state after three previous and two next operations. -/
def demoNext2 : EditorState :=
  (((historyNext demoPrev3).bind historyNext)).getD (baseEditor [] 0)

/-- C6: with history `["ls", "cat f", "grep x"]` and input `"foo"`,
three history-previous operations yield inputs `"grep x"`, `"cat f"`,
`"ls"` with the shadow slot holding `"foo"`; three history-next
operations then yield `"cat f"`, `"grep x"`, and finally restore `"foo"`
from the shadow, clearing the shadow and the selection.  In general,
history-previous leaves an existing shadow untouched (it shadows the
in-progress input only when no shadow exists), and history-next at the
most-recent entry restores the shadow and clears the selection. -/
theorem c6_history_navigation :
    ((historyPrev historyDemoState).input = "grep x".toList
      ∧ (historyPrev (historyPrev historyDemoState)).input
        = "cat f".toList
      ∧ demoPrev3.input = "ls".toList
      ∧ demoPrev3.orphanedNewInput = some "foo".toList
      ∧ (historyNext demoPrev3).map EditorState.input
        = some "cat f".toList
      ∧ ((historyNext demoPrev3).bind historyNext).map EditorState.input
        = some "grep x".toList
      ∧ (((historyNext demoPrev3).bind historyNext).bind
          historyNext).map
          (fun s => (s.input, s.orphanedNewInput, s.curHistoryIndex))
        = some ("foo".toList, none, none)) ∧
    (∀ s : EditorState, s.orphanedNewInput ≠ none →
      (historyPrev s).orphanedNewInput = s.orphanedNewInput) ∧
    (∀ (s : EditorState) (i : Nat) (orig : List Char),
      s.curHistoryIndex = some i → i + 1 = s.history.lines.length →
      s.orphanedNewInput = some orig →
      historyNext s = some
        { s with
          rolloutNeeded := true
          input := orig
          orphanedNewInput := none
          inputCursor := utf8Len orig
          curHistoryIndex := none
          historyOriginalLine := none }) := by
  refine ⟨by decide, ?_, ?_⟩
  · intro s hs
    simp only [historyPrev]
    cases hidx : s.curHistoryIndex with
    | none =>
      by_cases hlen : s.history.lines.length = 0
      · simp [hlen, hidx]
      · simp only [hidx, hlen, if_false]
        simp only [if_neg hs]
    | some x =>
      by_cases hx : x > 0
      · simp only [hidx, if_pos hx]
        simp only [if_neg hs]
      · simp [hidx, hx]
  · intro s i orig hidx hlen horig
    unfold historyNext
    simp only [hidx, hlen, if_pos rfl, horig]
    rfl

/-- Witness for C6's general components at the scenario states. -/
theorem c6_history_navigation_witness :
    (historyPrev demoPrev3).orphanedNewInput = demoPrev3.orphanedNewInput
    ∧ historyNext demoNext2 = some
      { demoNext2 with
        rolloutNeeded := true
        input := "foo".toList
        orphanedNewInput := none
        inputCursor := utf8Len "foo".toList
        curHistoryIndex := none
        historyOriginalLine := none } :=
  ⟨c6_history_navigation.2.1 demoPrev3 (by decide),
   c6_history_navigation.2.2 demoNext2 2 "foo".toList (by decide)
     (by decide) (by decide)⟩

end Liso

namespace Liso

/-! ## C1: control-character substitution in `add_text` -/

/-- The pure text-level effect of `add_text`: each forbidden character is
replaced by its rewritten form, all other characters pass through. -/
def expandText (s : List Char) : List Char :=
  s.flatMap (fun c => if isForbidden c then rewriteSeg c else [c])

/-- No character of the text is one of the substituted control
characters. -/
def forbiddenFree (s : List Char) : Bool := s.all (fun c => !isForbidden c)

theorem utf8Len_append (a b : List Char) :
    utf8Len (a ++ b) = utf8Len a + utf8Len b := by
  induction a with
  | nil => simp [utf8Len]
  | cons c cs ih => simp [utf8Len, ih]; omega

theorem utf8Len_eq_zero {t : List Char} : utf8Len t = 0 ↔ t = [] := by
  cases t with
  | nil => simp [utf8Len]
  | cons c cs =>
    simp only [utf8Len]
    constructor
    · intro h
      have := Char.utf8Size_pos c
      omega
    · intro h
      exact absurd h (by simp)

theorem modifyLast_concat (f : α → α) (es : List α) (x : α) :
    modifyLast f (es ++ [x]) = es ++ [f x] := by
  induction es with
  | nil => rfl
  | cons e es ih =>
    cases es with
    | nil => rfl
    | cons e2 es2 => simpa [modifyLast] using ih

theorem appendText_nil (l : Line) : l.appendText [] = l := by
  simp [Line.appendText]

theorem appendText_text (l : Line) (i : List Char) :
    (l.appendText i).text = l.text ++ i := by
  unfold Line.appendText
  split
  · simp_all
  · split
    · split <;> simp_all
    · rfl

theorem setStyle_text (l : Line) (nu : Style) :
    (l.setStyle nu).text = l.text := by
  unfold Line.setStyle
  split <;> try rfl
  split <;> try rfl
  split <;> rfl

theorem toggleStyle_text (l : Line) (nu : Style) :
    (l.toggleStyle nu).text = l.text := setStyle_text l _

theorem expandText_cons (c : Char) (cs : List Char) :
    expandText (c :: cs)
      = (if isForbidden c then rewriteSeg c else [c]) ++ expandText cs :=
  rfl

theorem addTextGo_text (rest : List Char) :
    ∀ (l : Line) (pending : List Char),
      (Line.addTextGo l pending rest).text
        = l.text ++ pending ++ expandText rest := by
  induction rest with
  | nil =>
    intro l pending
    simp [Line.addTextGo, appendText_text, expandText]
  | cons c cs ih =>
    intro l pending
    by_cases hc : isForbidden c = true
    · rw [expandText_cons]
      simp only [Line.addTextGo, hc, if_true, ih, toggleStyle_text,
        appendText_text]
      simp [List.append_assoc]
    · rw [Bool.not_eq_true] at hc
      rw [expandText_cons, hc]
      simp only [Line.addTextGo, hc, Bool.false_eq_true, if_false, ih]
      simp only [List.append_assoc, List.singleton_append,
        List.cons_append, List.nil_append]

theorem addText_text (l : Line) (i : List Char) :
    (l.addText i).text = l.text ++ expandText i := by
  unfold Line.addText
  split
  · simp_all [expandText]
  · simpa using addTextGo_text i l []

theorem forbiddenFree_append (a b : List Char) :
    forbiddenFree (a ++ b) = (forbiddenFree a && forbiddenFree b) :=
  List.all_append

theorem hexDigit_not_forbidden (m : Nat) (h : m < 16) :
    isForbidden (hexDigit m) = false := by
  interval_cases m <;> decide

theorem caret_not_forbidden (n : Nat) (h : n < 32) :
    isForbidden (Char.ofNat (64 + n)) = false := by
  interval_cases n <;> decide

theorem rewriteSeg_clean (c : Char) :
    forbiddenFree (rewriteSeg c) = true := by
  unfold rewriteSeg
  split
  · rename_i h
    simp [forbiddenFree, caret_not_forbidden c.toNat h]
    decide
  · simp only [forbiddenFree, hex4, List.all_cons, List.all_nil,
      Bool.and_eq_true, Bool.not_eq_true']
    refine ⟨by decide, by decide, ?_, ?_, ?_, ?_⟩ <;>
      simp [hexDigit_not_forbidden _ (Nat.mod_lt _ (by norm_num))]

theorem expandText_clean (s : List Char) :
    forbiddenFree (expandText s) = true := by
  induction s with
  | nil => decide
  | cons c cs ih =>
    rw [expandText_cons, forbiddenFree_append]
    by_cases hc : isForbidden c = true
    · simp [hc, rewriteSeg_clean c, ih]
    · simp only [hc, if_false, Bool.and_eq_true]
      exact ⟨by simp [forbiddenFree, hc], ih⟩

end Liso

namespace Liso

theorem sxor_sxor (s t : Style) : (s.sxor t).sxor t = s := by
  cases s
  cases t
  simp [Style.sxor, Bool.xor_assoc]

theorem sxor_inverse_ne (s : Style) : s.sxor Style.INVERSE ≠ s := by
  cases s
  simp [Style.sxor, Style.INVERSE]

theorem rangesOk_getLast :
    ∀ (es : List LineElement) (p last : Nat) (x : LineElement),
      rangesOk p last es = true → es.getLast? = some x →
      x.stop = last ∧ x.start ≤ x.stop := by
  intro es
  induction es with
  | nil => intro p last x h hx; simp at hx
  | cons e es ih =>
    intro p last x h hx
    simp only [rangesOk, Bool.and_eq_true, decide_eq_true_eq] at h
    cases es with
    | nil =>
      simp only [List.getLast?_singleton, Option.some.injEq] at hx
      subst hx
      simp only [rangesOk, decide_eq_true_eq] at h
      exact ⟨h.2, h.1.2⟩
    | cons e2 es2 =>
      rw [List.getLast?_cons_cons] at hx
      exact ih e.stop last x h.2 hx

theorem getStyle_concat (t : List Char) (es : List LineElement)
    (x : LineElement) : Line.getStyle ⟨t, es ++ [x]⟩ = x.style := by
  simp [Line.getStyle, List.getLast?_concat]

theorem getColors_concat (t : List Char) (es : List LineElement)
    (x : LineElement) : Line.getColors ⟨t, es ++ [x]⟩ = (x.fg, x.bg) := by
  simp [Line.getColors, List.getLast?_concat]

theorem setStyle_concat (t : List Char) (es : List LineElement)
    (x : LineElement) (nu : Style) :
    Line.setStyle ⟨t, es ++ [x]⟩ nu =
      if x.style = nu then ⟨t, es ++ [x]⟩
      else if x.start = x.stop then ⟨t, es ++ [{ x with style := nu }]⟩
      else ⟨t, (es ++ [x])
        ++ [⟨nu, x.fg, x.bg, utf8Len t, utf8Len t⟩]⟩ := by
  unfold Line.setStyle
  rw [List.getLast?_concat]
  simp only
  split
  · simp_all
  · split
    · simp_all [modifyLast_concat]
    · simp_all

end Liso

namespace Liso

theorem appendText_concat (t : List Char) (es : List LineElement)
    (x : LineElement) (R : List Char) (hR : R ≠ []) :
    Line.appendText ⟨t, es ++ [x]⟩ R =
      if t = [] then ⟨R, es ++ [{ x with stop := utf8Len R }]⟩
      else ⟨t ++ R, es ++ [{ x with stop := utf8Len t + utf8Len R }]⟩ := by
  unfold Line.appendText
  rw [if_neg hR]
  split
  · simp_all [List.getLast?_concat, modifyLast_concat]
  · simp_all [List.getLast?_concat, modifyLast_concat]

end Liso

namespace Liso

/-- The combined effect of `toggle_style(INVERSE)`, `append_text`,
`toggle_style(INVERSE)` — the rewriting step of `add_text` — on a line
satisfying the element invariant: the appended text is carried by an
element whose style is the active style with `INVERSE` flipped, and a
trailing empty element restores the previous style and colors. -/
theorem toggle_append_toggle (l : Line) (R : List Char) (hR : R ≠ [])
    (hl : lineInv l = true) :
    (((l.toggleStyle Style.INVERSE).appendText R).toggleStyle
      Style.INVERSE).text = l.text ++ R ∧
    ∃ es, (((l.toggleStyle Style.INVERSE).appendText R).toggleStyle
      Style.INVERSE).elements
      = es ++ [⟨l.getStyle.sxor Style.INVERSE, l.getColors.1,
          l.getColors.2, utf8Len l.text, utf8Len l.text + utf8Len R⟩,
        ⟨l.getStyle, l.getColors.1, l.getColors.2,
          utf8Len l.text + utf8Len R, utf8Len l.text + utf8Len R⟩] := by
  have hRn : 0 < utf8Len R :=
    Nat.pos_of_ne_zero (fun hz => hR (utf8Len_eq_zero.mp hz))
  obtain ⟨t, es⟩ := l
  rcases List.eq_nil_or_concat es with hes | ⟨es0, x, hes⟩
  · subst hes
    have ht : t = [] := by
      have h0 : rangesOk 0 (utf8Len t) ([] : List LineElement) = true := by
        simp only [lineInv, Bool.and_eq_true] at hl
        exact hl.1.1.1
      simp only [rangesOk, decide_eq_true_eq] at h0
      exact utf8Len_eq_zero.mp h0.symm
    subst ht
    have h2 : (Line.toggleStyle ⟨[], []⟩ Style.INVERSE)
        = ⟨[], [] ++ [⟨Style.PLAIN.sxor Style.INVERSE, none, none,
            0, 0⟩]⟩ := by
      rfl
    rw [h2, appendText_concat _ _ _ _ hR, if_pos rfl]
    have h4 : (Line.toggleStyle ⟨R, [] ++
        [{ (⟨Style.PLAIN.sxor Style.INVERSE, none, none, 0, 0⟩ :
            LineElement) with stop := utf8Len R }]⟩ Style.INVERSE)
        = ⟨R, ([] ++ [{ (⟨Style.PLAIN.sxor Style.INVERSE, none, none, 0,
            0⟩ : LineElement) with stop := utf8Len R }])
          ++ [⟨(Style.PLAIN.sxor Style.INVERSE).sxor Style.INVERSE,
            none, none, utf8Len R, utf8Len R⟩]⟩ := by
      unfold Line.toggleStyle
      rw [getStyle_concat, setStyle_concat,
        if_neg (Ne.symm (sxor_inverse_ne _))]
      rw [if_neg (by simpa using Nat.ne_of_lt hRn)]
    rw [h4, sxor_sxor]
    refine ⟨by simp, [], ?_⟩
    simp only [Line.getStyle, Line.getColors, List.getLast?_nil,
      List.nil_append, utf8Len, Nat.zero_add]
    rfl
  · rw [List.concat_eq_append] at hes
    subst hes
    have hro : rangesOk 0 (utf8Len t) (es0 ++ [x]) = true := by
      simp only [lineInv, Bool.and_eq_true] at hl
      exact hl.1.1.1
    obtain ⟨hstop, hle⟩ :=
      rangesOk_getLast _ _ _ x hro (List.getLast?_concat _)
    have hgs : Line.getStyle ⟨t, es0 ++ [x]⟩ = x.style :=
      getStyle_concat _ _ _
    have hgc : Line.getColors ⟨t, es0 ++ [x]⟩ = (x.fg, x.bg) :=
      getColors_concat _ _ _
    rw [hgs, hgc]
    have h2 : (Line.toggleStyle ⟨t, es0 ++ [x]⟩ Style.INVERSE)
        = if x.start = x.stop then
            ⟨t, es0 ++ [{ x with style := x.style.sxor Style.INVERSE }]⟩
          else ⟨t, (es0 ++ [x]) ++ [⟨x.style.sxor Style.INVERSE, x.fg,
            x.bg, utf8Len t, utf8Len t⟩]⟩ := by
      unfold Line.toggleStyle
      rw [hgs, setStyle_concat, if_neg (Ne.symm (sxor_inverse_ne _))]
    by_cases hxe : x.start = x.stop
    · rw [h2, if_pos hxe]
      rw [appendText_concat _ _ _ _ hR]
      by_cases ht : t = []
      · rw [if_pos ht]
        subst ht
        simp only [utf8Len] at hstop
        have hsa0 : x.start = 0 := by omega
        have h4 : (Line.toggleStyle ⟨R, es0 ++
            [{ { x with style := x.style.sxor Style.INVERSE } with
              stop := utf8Len R }]⟩ Style.INVERSE)
            = ⟨R, (es0 ++ [{ { x with style := x.style.sxor Style.INVERSE }
                with stop := utf8Len R }])
              ++ [⟨(x.style.sxor Style.INVERSE).sxor Style.INVERSE,
                x.fg, x.bg, utf8Len R, utf8Len R⟩]⟩ := by
          unfold Line.toggleStyle
          rw [getStyle_concat, setStyle_concat,
            if_neg (Ne.symm (sxor_inverse_ne _))]
          rw [if_neg (by simp only; omega)]
        rw [h4, sxor_sxor]
        refine ⟨rfl, es0, ?_⟩
        simp only [utf8Len, Nat.zero_add, List.append_assoc,
          List.cons_append, List.nil_append]
        rw [hsa0]
      · rw [if_neg ht]
        have htpos : x.start = utf8Len t := by omega
        have h4 : (Line.toggleStyle ⟨t ++ R, es0 ++
            [{ { x with style := x.style.sxor Style.INVERSE } with
              stop := utf8Len t + utf8Len R }]⟩ Style.INVERSE)
            = ⟨t ++ R, (es0 ++
              [{ { x with style := x.style.sxor Style.INVERSE } with
                stop := utf8Len t + utf8Len R }])
              ++ [⟨(x.style.sxor Style.INVERSE).sxor Style.INVERSE,
                x.fg, x.bg, utf8Len (t ++ R), utf8Len (t ++ R)⟩]⟩ := by
          unfold Line.toggleStyle
          rw [getStyle_concat, setStyle_concat,
            if_neg (Ne.symm (sxor_inverse_ne _))]
          rw [if_neg (by simp only; omega)]
        rw [h4, sxor_sxor]
        refine ⟨rfl, es0, ?_⟩
        simp only [utf8Len_append, List.append_assoc, List.cons_append,
          List.nil_append]
        rw [htpos]
    · rw [h2, if_neg hxe]
      have htne : t ≠ [] := by
        intro ht2
        subst ht2
        simp only [utf8Len] at hstop
        omega
      rw [appendText_concat _ _ _ _ hR, if_neg htne]
      have h4 : (Line.toggleStyle ⟨t ++ R, (es0 ++ [x]) ++
          [{ (⟨x.style.sxor Style.INVERSE, x.fg, x.bg, utf8Len t,
              utf8Len t⟩ : LineElement) with
            stop := utf8Len t + utf8Len R }]⟩ Style.INVERSE)
          = ⟨t ++ R, ((es0 ++ [x]) ++
            [{ (⟨x.style.sxor Style.INVERSE, x.fg, x.bg, utf8Len t,
                utf8Len t⟩ : LineElement) with
              stop := utf8Len t + utf8Len R }])
            ++ [⟨(x.style.sxor Style.INVERSE).sxor Style.INVERSE,
              x.fg, x.bg, utf8Len (t ++ R), utf8Len (t ++ R)⟩]⟩ := by
        unfold Line.toggleStyle
        rw [getStyle_concat, setStyle_concat,
          if_neg (Ne.symm (sxor_inverse_ne _))]
        rw [if_neg (by simp only; omega)]
      rw [h4, sxor_sxor]
      refine ⟨rfl, es0 ++ [x], ?_⟩
      simp only [utf8Len_append, List.append_assoc, List.cons_append,
        List.nil_append]

end Liso

namespace Liso

theorem rewriteSeg_ne_nil (c : Char) : rewriteSeg c ≠ [] := by
  unfold rewriteSeg
  split <;> simp

/-- C1 counterexample: when `INVERSE` is already active, `add_text`
*toggles it off* across the rewritten characters.  Adding U+0001 to a
line whose active style is `INVERSE` stores `^A` with the PLAIN style,
not with `Inverse` toggled on as the claim states. -/
theorem c1_inverse_not_toggled_on_cex :
    ((Line.new.setStyle Style.INVERSE).addText [Char.ofNat 0x01]).elements
      = [⟨Style.PLAIN, none, none, 0, 2⟩,
         ⟨Style.INVERSE, none, none, 2, 2⟩] ∧
    ((Line.new.setStyle Style.INVERSE).addText [Char.ofNat 0x01]).text
      = "^A".toList := by
  decide

/-- C1 (amended): `add_text` rewrites every C0/C1 control character
other than newline, as well as U+2028 and U+2029, into caret form
(`^@`..`^_` for code points below 32) or `U+XXXX` form; the stored text
is the old text plus the rewriting (so a line whose text was free of
those characters stays free of them); and across the rewritten
characters the `Inverse` style is *toggled relative to the active
style* — flipped on entry and flipped back after — rather than
unconditionally switched on. -/
theorem c1_add_text_control_rewriting (l : Line) (s : List Char)
    (c : Char) (hc : isForbidden c = true) (hl : lineInv l = true) :
    (l.addText s).text = l.text ++ expandText s
    ∧ (forbiddenFree l.text = true →
        forbiddenFree (l.addText s).text = true)
    ∧ (l.addText [c]).text = l.text ++ rewriteSeg c
    ∧ ∃ es, (l.addText [c]).elements
        = es ++ [⟨l.getStyle.sxor Style.INVERSE, l.getColors.1,
            l.getColors.2, utf8Len l.text,
            utf8Len l.text + utf8Len (rewriteSeg c)⟩,
          ⟨l.getStyle, l.getColors.1, l.getColors.2,
            utf8Len l.text + utf8Len (rewriteSeg c),
            utf8Len l.text + utf8Len (rewriteSeg c)⟩] := by
  have key : l.addText [c]
      = ((l.toggleStyle Style.INVERSE).appendText
          (rewriteSeg c)).toggleStyle Style.INVERSE := by
    simp [Line.addText, Line.addTextGo, hc, appendText_nil]
  refine ⟨addText_text l s, ?_, ?_, ?_⟩
  · intro h
    rw [addText_text, forbiddenFree_append, h, expandText_clean]
    rfl
  · rw [key]
    exact (toggle_append_toggle l (rewriteSeg c) (rewriteSeg_ne_nil c)
      hl).1
  · rw [key]
    exact (toggle_append_toggle l (rewriteSeg c) (rewriteSeg_ne_nil c)
      hl).2

/-- Witness for C1 at a fresh line, the plain string `"a"`, and the
control character U+0001. -/
theorem c1_add_text_control_rewriting_witness :
    (Line.new.addText ['a']).text = Line.new.text ++ expandText ['a']
    ∧ (forbiddenFree Line.new.text = true →
        forbiddenFree (Line.new.addText ['a']).text = true)
    ∧ (Line.new.addText [Char.ofNat 1]).text
      = Line.new.text ++ rewriteSeg (Char.ofNat 1)
    ∧ ∃ es, (Line.new.addText [Char.ofNat 1]).elements
        = es ++ [⟨Line.new.getStyle.sxor Style.INVERSE,
            Line.new.getColors.1, Line.new.getColors.2,
            utf8Len Line.new.text,
            utf8Len Line.new.text + utf8Len (rewriteSeg (Char.ofNat 1))⟩,
          ⟨Line.new.getStyle, Line.new.getColors.1, Line.new.getColors.2,
            utf8Len Line.new.text + utf8Len (rewriteSeg (Char.ofNat 1)),
            utf8Len Line.new.text
              + utf8Len (rewriteSeg (Char.ofNat 1))⟩] :=
  c1_add_text_control_rewriting Line.new ['a'] (Char.ofNat 1) (by decide)
    (by decide)

end Liso

namespace Liso

/-! ## C4: the cursor stays on a code-point boundary -/

/-- The boundary half of the claimed cursor invariant. -/
def cursorBoundaryInv (s : EditorState) : Bool :=
  isBoundary s.input s.inputCursor

theorem boundary_zero (t : List Char) : isBoundary t 0 = true := by
  cases t <;> rfl

theorem boundary_le :
    ∀ (t : List Char) (i : Nat), isBoundary t i = true → i ≤ utf8Len t := by
  intro t
  induction t with
  | nil =>
    intro i h
    cases i with
    | zero => simp [utf8Len]
    | succ j => simp [isBoundary] at h
  | cons c cs ih =>
    intro i h
    cases i with
    | zero => simp
    | succ j =>
      simp only [isBoundary] at h
      split at h
      · exact absurd h (by simp)
      · have := ih _ h
        simp only [utf8Len]
        omega

theorem boundary_append_left (a b : List Char) :
    isBoundary (a ++ b) (utf8Len a) = true := by
  induction a with
  | nil => exact boundary_zero b
  | cons c cs ih =>
    have hpos := Char.utf8Size_pos c
    have hn : utf8Len (c :: cs) = (utf8Len (c :: cs) - 1) + 1 := by
      simp only [utf8Len]
      omega
    rw [hn]
    simp only [List.cons_append, isBoundary]
    rw [if_neg (by simp only [utf8Len] at *; omega)]
    have harg : (utf8Len (c :: cs) - 1) + 1 - c.utf8Size = utf8Len cs := by
      simp only [utf8Len] at *
      omega
    rw [harg]
    exact ih

theorem boundary_len (t : List Char) :
    isBoundary t (utf8Len t) = true := by
  have := boundary_append_left t []
  simpa using this

theorem boundary_take :
    ∀ (t : List Char) (i : Nat), isBoundary t i = true →
      utf8Len (takeBytes i t) = i := by
  intro t
  induction t with
  | nil =>
    intro i h
    cases i with
    | zero => rfl
    | succ j => simp [isBoundary] at h
  | cons c cs ih =>
    intro i h
    cases i with
    | zero => rfl
    | succ j =>
      simp only [isBoundary] at h
      split at h
      · exact absurd h (by simp)
      · rename_i hge
        simp only [takeBytes, if_neg (Nat.succ_ne_zero j), utf8Len]
        rw [ih _ h]
        omega

theorem advanceToBoundary_boundary (t : List Char) :
    ∀ (d i : Nat), utf8Len t - i ≤ d → i ≤ utf8Len t →
      isBoundary t (advanceToBoundary t i) = true := by
  intro d
  induction d with
  | zero =>
    intro i hd hle
    have hi : i = utf8Len t := by omega
    rw [advanceToBoundary, if_neg (by omega)]
    rw [hi]
    exact boundary_len t
  | succ d ih =>
    intro i hd hle
    rw [advanceToBoundary]
    split
    · split
      · assumption
      · exact ih (i + 1) (by omega) (by rename_i hlt _; omega)
    · have hi : i = utf8Len t := by omega
      rw [hi]
      exact boundary_len t

theorem skipFwdLoop_boundary (t : List Char) (cond : Nat → Bool) :
    ∀ (d i : Nat), utf8Len t - i ≤ d → i ≤ utf8Len t →
      isBoundary t (skipFwdLoop t cond i) = true := by
  intro d
  induction d with
  | zero =>
    intro i hd hle
    have hi : i = utf8Len t := by omega
    rw [skipFwdLoop, if_neg (by omega), hi]
    exact boundary_len t
  | succ d ih =>
    intro i hd hle
    rw [skipFwdLoop]
    split
    · split
      · exact ih (i + 1) (by omega) (by rename_i hlt _; omega)
      · rename_i hlt hcond
        simp only [Bool.or_eq_true, Bool.not_eq_true'] at hcond
        push_neg at hcond
        rcases hb : isBoundary t i with _ | _
        · rw [hb] at hcond
          simp at hcond
        · rfl
    · have hi : i = utf8Len t := by omega
      rw [hi]
      exact boundary_len t

theorem skipBackLoop_boundary (t : List Char) (cond : Nat → Bool) :
    ∀ i : Nat, isBoundary t (skipBackLoop t cond i) = true := by
  intro i
  induction i with
  | zero => exact boundary_zero t
  | succ j ih =>
    rw [skipBackLoop]
    split
    · exact ih
    · rename_i hcond
      rcases hb : isBoundary t (j + 1) with _ | _
      · rw [hb] at hcond
        simp at hcond
      · rfl

theorem skipBackLoop_le (t : List Char) (cond : Nat → Bool) :
    ∀ i : Nat, skipBackLoop t cond i ≤ i := by
  intro i
  induction i with
  | zero => simp [skipBackLoop]
  | succ j ih =>
    rw [skipBackLoop]
    split
    · omega
    · omega

theorem skipFwdLoop_le (t : List Char) (cond : Nat → Bool) :
    ∀ (d i : Nat), utf8Len t - i ≤ d →
      skipFwdLoop t cond i ≤ max i (utf8Len t) := by
  intro d
  induction d with
  | zero =>
    intro i hd
    rw [skipFwdLoop]
    split
    · omega
    · omega
  | succ d ih =>
    intro i hd
    rw [skipFwdLoop]
    split
    · split
      · have := ih (i + 1) (by omega)
        rename_i hlt _
        omega
      · omega
    · omega

end Liso

namespace Liso

/-- The editor operations quantified over by the cursor-invariant claim,
dispatching to the corresponding `TtyState` handlers. -/
inductive EditOp where
  | charInput (ch : Char)
  | leftArrow
  | rightArrow
  | home
  | endOfLine
  | deleteBack
  | deleteFore
  | deleteWord
  | killToEnd
  | killToStart
  | yank
  | histPrev
  | histNext
  | complInsert (text : List Char)
  | complReplace (newLine : List Char) (newCursor : Nat)

/-- Apply one editor operation; `none` is a panic of the original. -/
def applyEdit (cw : Char → Nat) : EditOp → EditorState →
    Option EditorState
  | EditOp.charInput ch, s => some (handleCharInput s ch)
  | EditOp.leftArrow, s => some (handleLeftArrow cw s)
  | EditOp.rightArrow, s => some (handleRightArrow cw s)
  | EditOp.home, s => some (handleHome s)
  | EditOp.endOfLine, s => some (handleEnd s)
  | EditOp.deleteBack, s => some (handleDeleteBack cw s)
  | EditOp.deleteFore, s => some (handleDeleteFore cw s)
  | EditOp.deleteWord, s => some (handleDeleteWord cw s)
  | EditOp.killToEnd, s => some (handleKillToEnd s)
  | EditOp.killToStart, s => some (handleKillToStart s)
  | EditOp.yank, s => some (handleYank s)
  | EditOp.histPrev, s => some (historyPrev s)
  | EditOp.histNext, s => historyNext s
  | EditOp.complInsert text, s => some (completionInsertAtCursor s text)
  | EditOp.complReplace nl nc, s => completionReplaceWholeLine s nl nc

theorem dismissNotice_input (s : EditorState) :
    (dismissNotice s).input = s.input := by
  unfold dismissNotice
  split <;> rfl

theorem dismissNotice_inputCursor (s : EditorState) :
    (dismissNotice s).inputCursor = s.inputCursor := by
  unfold dismissNotice
  split <;> rfl

/-- Insertion of `repl` at a boundary offset `c` leaves
`c + utf8Len repl` a boundary of the result. -/
theorem boundary_insert (input repl : List Char) (c : Nat)
    (h : isBoundary input c = true) :
    isBoundary (replaceRange input c c repl) (c + utf8Len repl)
      = true := by
  unfold replaceRange
  have h2 := boundary_append_left (takeBytes c input ++ repl)
    (dropBytes c input)
  rwa [utf8Len_append, boundary_take _ _ h] at h2

/-- Deletion of the byte range `[a, b)`, with `a` a boundary, leaves `a`
a boundary of the result. -/
theorem boundary_delete (input : List Char) (a b : Nat)
    (h : isBoundary input a = true) :
    isBoundary (replaceRange input a b []) a = true := by
  unfold replaceRange
  rw [List.append_nil]
  have h2 := boundary_append_left (takeBytes a input) (dropBytes b input)
  rwa [boundary_take _ _ h] at h2

end Liso

namespace Liso

theorem takeBytes_append_dropBytes :
    ∀ (n : Nat) (t : List Char), takeBytes n t ++ dropBytes n t = t := by
  intro n t
  induction t generalizing n with
  | nil => simp [takeBytes, dropBytes]
  | cons c cs ih =>
    by_cases hn : n = 0
    · simp [takeBytes, dropBytes, hn]
    · simp [takeBytes, dropBytes, hn, ih]

theorem inv_handleCharInput (s : EditorState) (ch : Char)
    (h : cursorBoundaryInv s = true) :
    cursorBoundaryInv (handleCharInput s ch) = true := by
  unfold cursorBoundaryInv at *
  unfold handleCharInput
  simp only
  have hsz := Char.utf8Size_pos ch
  have hlen : utf8Len (replaceRange s.input s.inputCursor s.inputCursor
      [ch]) = s.inputCursor + (ch.utf8Size
        + utf8Len (dropBytes s.inputCursor s.input)) := by
    unfold replaceRange
    rw [utf8Len_append, utf8Len_append, boundary_take _ _ h]
    simp [utf8Len]
    omega
  apply advanceToBoundary_boundary _ (utf8Len (replaceRange s.input
    s.inputCursor s.inputCursor [ch])) _ (by omega) (by omega)

end Liso

namespace Liso

theorem inv_handleLeftArrow (cw : Char → Nat) (s : EditorState)
    (h : cursorBoundaryInv s = true) :
    cursorBoundaryInv (handleLeftArrow cw s) = true := by
  unfold cursorBoundaryInv at *
  simp only [handleLeftArrow]
  split
  · simp only [dismissNotice_input, dismissNotice_inputCursor]
    exact skipBackLoop_boundary _ _ _
  · rw [dismissNotice_input, dismissNotice_inputCursor]
    exact h

theorem inv_handleRightArrow (cw : Char → Nat) (s : EditorState)
    (h : cursorBoundaryInv s = true) :
    cursorBoundaryInv (handleRightArrow cw s) = true := by
  unfold cursorBoundaryInv at *
  simp only [handleRightArrow]
  split
  · rename_i hlt
    rw [dismissNotice_input, dismissNotice_inputCursor] at hlt
    simp only [dismissNotice_input, dismissNotice_inputCursor]
    exact skipFwdLoop_boundary _ _ (utf8Len s.input) _ (by omega)
      (by omega)
  · rw [dismissNotice_input, dismissNotice_inputCursor]
    exact h

theorem inv_handleHome (s : EditorState)
    (h : cursorBoundaryInv s = true) :
    cursorBoundaryInv (handleHome s) = true := by
  unfold cursorBoundaryInv at *
  simp only [handleHome]
  split
  · simp only [dismissNotice_input, dismissNotice_inputCursor]
    exact boundary_zero _
  · rw [dismissNotice_input, dismissNotice_inputCursor]
    exact h

theorem inv_handleEnd (s : EditorState)
    (h : cursorBoundaryInv s = true) :
    cursorBoundaryInv (handleEnd s) = true := by
  unfold cursorBoundaryInv at *
  simp only [handleEnd]
  split
  · simp only [dismissNotice_input, dismissNotice_inputCursor]
    exact boundary_len _
  · rw [dismissNotice_input, dismissNotice_inputCursor]
    exact h

theorem inv_handleDeleteBack (cw : Char → Nat) (s : EditorState)
    (h : cursorBoundaryInv s = true) :
    cursorBoundaryInv (handleDeleteBack cw s) = true := by
  unfold cursorBoundaryInv at *
  simp only [handleDeleteBack]
  split
  · simp only [dismissNotice_input, dismissNotice_inputCursor]
    exact boundary_delete _ _ _ (skipBackLoop_boundary _ _ _)
  · rw [dismissNotice_input, dismissNotice_inputCursor]
    exact h

theorem inv_handleDeleteFore (cw : Char → Nat) (s : EditorState)
    (h : cursorBoundaryInv s = true) :
    cursorBoundaryInv (handleDeleteFore cw s) = true := by
  unfold cursorBoundaryInv at *
  simp only [handleDeleteFore]
  split
  · simp only [dismissNotice_input, dismissNotice_inputCursor]
    exact boundary_delete _ _ _ h
  · rw [dismissNotice_input, dismissNotice_inputCursor]
    exact h

theorem inv_handleDeleteWord (cw : Char → Nat) (s : EditorState)
    (h : cursorBoundaryInv s = true) :
    cursorBoundaryInv (handleDeleteWord cw s) = true := by
  unfold cursorBoundaryInv at *
  simp only [handleDeleteWord]
  split
  · rename_i hpos
    rw [dismissNotice_inputCursor] at hpos
    simp only [dismissNotice_input, dismissNotice_inputCursor]
    apply boundary_delete
    have hcle : s.inputCursor ≤ utf8Len s.input := boundary_le _ _ h
    have h1le := skipBackLoop_le s.input
      (cursorOnInvisibleOrSpace cw s.input) (s.inputCursor - 1)
    split
    · split
      · apply skipFwdLoop_boundary _ _ (utf8Len s.input) _ (by omega)
        have h2le := skipBackLoop_le s.input
          (cursorOnInvisibleOrNonspace cw s.input)
          (skipBackLoop s.input (cursorOnInvisibleOrSpace cw s.input)
            (s.inputCursor - 1))
        omega
      · exact skipBackLoop_boundary _ _ _
    · exact skipBackLoop_boundary _ _ _
  · rw [dismissNotice_input, dismissNotice_inputCursor]
    exact h

theorem inv_handleKillToEnd (s : EditorState)
    (h : cursorBoundaryInv s = true) :
    cursorBoundaryInv (handleKillToEnd s) = true := by
  unfold cursorBoundaryInv at *
  simp only [handleKillToEnd]
  split
  · simp only [dismissNotice_input, dismissNotice_inputCursor]
    have ht := boundary_take s.input s.inputCursor h
    have hb := boundary_len (takeBytes s.inputCursor s.input)
    rwa [ht] at hb
  · rw [dismissNotice_input, dismissNotice_inputCursor]
    exact h

theorem inv_handleKillToStart (s : EditorState)
    (h : cursorBoundaryInv s = true) :
    cursorBoundaryInv (handleKillToStart s) = true := by
  unfold cursorBoundaryInv at *
  simp only [handleKillToStart]
  split
  · simp only [dismissNotice_input, dismissNotice_inputCursor]
    exact boundary_zero _
  · rw [dismissNotice_input, dismissNotice_inputCursor]
    exact h

theorem inv_handleYank (s : EditorState)
    (h : cursorBoundaryInv s = true) :
    cursorBoundaryInv (handleYank s) = true := by
  unfold cursorBoundaryInv at *
  simp only [handleYank]
  simp only [dismissNotice_input, dismissNotice_inputCursor]
  exact boundary_insert _ _ _ h

theorem inv_historyPrev (s : EditorState)
    (h : cursorBoundaryInv s = true) :
    cursorBoundaryInv (historyPrev s) = true := by
  unfold cursorBoundaryInv at *
  simp only [historyPrev]
  split
  · exact h
  · exact boundary_len _

theorem inv_historyNext (s s' : EditorState)
    (h : cursorBoundaryInv s = true) (happ : historyNext s = some s') :
    cursorBoundaryInv s' = true := by
  unfold cursorBoundaryInv at *
  simp only [historyNext, Option.map_eq_some'] at happ
  obtain ⟨s2, hs2, hs'⟩ := happ
  subst hs'
  show isBoundary s2.input s2.inputCursor = true
  split at hs2
  · cases hs2
    exact h
  · split at hs2
    · split at hs2
      · cases hs2
      · cases hs2
        exact boundary_len _
    · cases hs2
      exact boundary_len _

theorem inv_completionInsertAtCursor (s : EditorState) (text : List Char)
    (h : cursorBoundaryInv s = true) :
    cursorBoundaryInv (completionInsertAtCursor s text) = true := by
  unfold cursorBoundaryInv at *
  simp only [completionInsertAtCursor]
  split
  · exact boundary_insert _ _ _ h
  · exact h

theorem inv_completionReplaceWholeLine (s s' : EditorState)
    (nl : List Char) (nc : Nat) (h : cursorBoundaryInv s = true)
    (hb : isBoundary nl nc = true)
    (happ : completionReplaceWholeLine s nl nc = some s') :
    cursorBoundaryInv s' = true := by
  unfold cursorBoundaryInv at *
  simp only [completionReplaceWholeLine] at happ
  split at happ
  · cases happ
  · split at happ
    · cases happ
      exact hb
    · cases happ
      exact h

end Liso

namespace Liso

/-- C4 counterexample: with `input` a single combining acute accent
U+0301 (zero columns wide under `unicode_width`), pressing Home puts the
cursor at offset 0 — on a zero-width code point, with the cursor not at
the end of the input — because the zero-width skips never run at
position 0.  This refutes the claim's zero-width clause. -/
theorem c4_home_lands_on_zero_width_cex :
    (handleHome (baseEditor [Char.ofNat 0x301] 2)).inputCursor = 0 ∧
    charAtByte (handleHome (baseEditor [Char.ofNat 0x301] 2)).input 0
      = some (Char.ofNat 0x301) ∧
    cwDemo (Char.ofNat 0x301) = 0 ∧
    (handleHome (baseEditor [Char.ofNat 0x301] 2)).inputCursor
      ≠ utf8Len (handleHome (baseEditor [Char.ofNat 0x301] 2)).input := by
  decide

/-- C4 (amended): after every editor operation — character insertion,
cursor motions, deletions, kills, yank, history navigation, and
completion (provided a `ReplaceWholeLine` result's cursor is itself a
code-point boundary, since the code only range-checks it) — the input
cursor lies on a UTF-8 code-point boundary of `input`.  The zero-width
clause of the original claim does not hold (see the counterexample): the
editor skips zero-width code points during motions, but not at position
0 nor after insertions. -/
theorem c4_cursor_stays_on_boundary (cw : Char → Nat) (op : EditOp)
    (s s' : EditorState) (hinv : cursorBoundaryInv s = true)
    (hrepl : ∀ nl nc, op = EditOp.complReplace nl nc →
      isBoundary nl nc = true)
    (happ : applyEdit cw op s = some s') :
    cursorBoundaryInv s' = true := by
  cases op with
  | charInput ch =>
    simp only [applyEdit, Option.some.injEq] at happ
    subst happ
    exact inv_handleCharInput s ch hinv
  | leftArrow =>
    simp only [applyEdit, Option.some.injEq] at happ
    subst happ
    exact inv_handleLeftArrow cw s hinv
  | rightArrow =>
    simp only [applyEdit, Option.some.injEq] at happ
    subst happ
    exact inv_handleRightArrow cw s hinv
  | home =>
    simp only [applyEdit, Option.some.injEq] at happ
    subst happ
    exact inv_handleHome s hinv
  | endOfLine =>
    simp only [applyEdit, Option.some.injEq] at happ
    subst happ
    exact inv_handleEnd s hinv
  | deleteBack =>
    simp only [applyEdit, Option.some.injEq] at happ
    subst happ
    exact inv_handleDeleteBack cw s hinv
  | deleteFore =>
    simp only [applyEdit, Option.some.injEq] at happ
    subst happ
    exact inv_handleDeleteFore cw s hinv
  | deleteWord =>
    simp only [applyEdit, Option.some.injEq] at happ
    subst happ
    exact inv_handleDeleteWord cw s hinv
  | killToEnd =>
    simp only [applyEdit, Option.some.injEq] at happ
    subst happ
    exact inv_handleKillToEnd s hinv
  | killToStart =>
    simp only [applyEdit, Option.some.injEq] at happ
    subst happ
    exact inv_handleKillToStart s hinv
  | yank =>
    simp only [applyEdit, Option.some.injEq] at happ
    subst happ
    exact inv_handleYank s hinv
  | histPrev =>
    simp only [applyEdit, Option.some.injEq] at happ
    subst happ
    exact inv_historyPrev s hinv
  | histNext =>
    simp only [applyEdit] at happ
    exact inv_historyNext s s' hinv happ
  | complInsert text =>
    simp only [applyEdit, Option.some.injEq] at happ
    subst happ
    exact inv_completionInsertAtCursor s text hinv
  | complReplace nl nc =>
    simp only [applyEdit] at happ
    exact inv_completionReplaceWholeLine s s' nl nc hinv
      (hrepl nl nc rfl) happ

/-- Witness for C4: a concrete yank into the middle of a multi-byte
input keeps the cursor on a boundary. -/
theorem c4_cursor_stays_on_boundary_witness :
    cursorBoundaryInv
      (handleYank { baseEditor ['é', 'a'] 2 with clipboard := ['b'] })
      = true :=
  c4_cursor_stays_on_boundary cwDemo EditOp.yank
    { baseEditor ['é', 'a'] 2 with clipboard := ['b'] }
    (handleYank { baseEditor ['é', 'a'] 2 with clipboard := ['b'] })
    (by decide) (fun nl nc h => nomatch h) rfl

end Liso

namespace Liso

/-! ## C3: bounds on the recorded cursor -/

/-- The running invariant of the renderer loop: the simulated column is
inside the screen, and any recorded cursor target is within the width
and the break count so far. -/
def rsInv (width : Nat) (st : RolloutSt) : Prop :=
  st.curColumn < width
    ∧ (∀ v, st.outLeft = some v → v ≤ width)
    ∧ (∀ v, st.outTop = some v → v ≤ st.curBreaks)

theorem emit_curColumn (st : RolloutSt) (op : TermOp) :
    (emit st op).curColumn = st.curColumn := rfl

theorem emit_curBreaks (st : RolloutSt) (op : TermOp) :
    (emit st op).curBreaks = st.curBreaks := rfl

theorem emit_outLeft (st : RolloutSt) (op : TermOp) :
    (emit st op).outLeft = st.outLeft := rfl

theorem emit_outTop (st : RolloutSt) (op : TermOp) :
    (emit st op).outTop = st.outTop := rfl

theorem maybeReport_curColumn (width : Nat) (cp : Option Nat) (i : Nat)
    (st : RolloutSt) :
    (maybeReport width cp i st).curColumn = st.curColumn := by
  unfold maybeReport
  split
  · rfl
  · split
    · split <;> rfl
    · rfl

theorem maybeReport_curBreaks (width : Nat) (cp : Option Nat) (i : Nat)
    (st : RolloutSt) :
    (maybeReport width cp i st).curBreaks = st.curBreaks := by
  unfold maybeReport
  split
  · rfl
  · split
    · split <;> rfl
    · rfl

end Liso

namespace Liso

theorem maybeReport_inv (width : Nat) (cp : Option Nat) (i : Nat)
    (st : RolloutSt) (h : rsInv width st) :
    rsInv width (maybeReport width cp i st) := by
  obtain ⟨h1, h2, h3⟩ := h
  unfold maybeReport
  split
  · exact ⟨h1, h2, h3⟩
  · split
    · split <;>
        (refine ⟨h1, ?_, ?_⟩ <;>
          (intro v hv
           dsimp only at hv ⊢
           simp only [Option.some.injEq] at hv
           omega))
    · exact ⟨h1, h2, h3⟩

theorem reconcile_curColumn (width cc cb : Nat) (st : RolloutSt) :
    (reconcile width cc cb st).curColumn = st.curColumn := by
  simp only [reconcile]
  repeat' split
  all_goals rfl

theorem reconcile_curBreaks (width cc cb : Nat) (st : RolloutSt) :
    (reconcile width cc cb st).curBreaks = st.curBreaks := by
  simp only [reconcile]
  repeat' split
  all_goals rfl

theorem reconcile_outLeft (width cc cb : Nat) (st : RolloutSt) :
    (reconcile width cc cb st).outLeft = st.outLeft := by
  simp only [reconcile]
  repeat' split
  all_goals rfl

theorem reconcile_outTop (width cc cb : Nat) (st : RolloutSt) :
    (reconcile width cc cb st).outTop = st.outTop := by
  simp only [reconcile]
  repeat' split
  all_goals rfl

theorem reconcile_inv (width cc cb : Nat) (st : RolloutSt)
    (h : rsInv width st) : rsInv width (reconcile width cc cb st) := by
  obtain ⟨h1, h2, h3⟩ := h
  refine ⟨?_, ?_, ?_⟩
  · rw [reconcile_curColumn]
    exact h1
  · rw [reconcile_outLeft]
    exact h2
  · rw [reconcile_outTop, reconcile_curBreaks]
    exact h3

theorem outputCharWrap_outLeft (width w : Nat) (ch : Char)
    (st : RolloutSt) :
    (outputCharWrap width w ch st).outLeft = st.outLeft := by
  simp only [outputCharWrap]
  split
  · split <;> try split
    all_goals rfl
  · rfl

theorem outputCharWrap_outTop (width w : Nat) (ch : Char)
    (st : RolloutSt) :
    (outputCharWrap width w ch st).outTop = st.outTop := by
  simp only [outputCharWrap]
  split
  · split <;> try split
    all_goals rfl
  · rfl

theorem outputCharWrap_breaks_ge (width w : Nat) (ch : Char)
    (st : RolloutSt) :
    st.curBreaks ≤ (outputCharWrap width w ch st).curBreaks := by
  simp only [outputCharWrap]
  split
  · split <;> try split
    all_goals (dsimp only [emit]; omega)
  · omega

theorem outputCharWrap_col (width w : Nat) (ch : Char) (st : RolloutSt)
    (h0 : 0 < width)
    (hpre : st.curColumn < width ∨ (0 < w ∧ width ≤ st.curColumn)
      ∨ ch = '\n') :
    (outputCharWrap width w ch st).curColumn < width := by
  simp only [outputCharWrap]
  split
  · split <;> try split
    all_goals (show 0 < width; omega)
  · rename_i hcond
    push_neg at hcond
    rcases hpre with h | ⟨hw, hge⟩ | hnl
    · exact h
    · have := hcond.1 hw
      omega
    · exact absurd hnl hcond.2

end Liso

namespace Liso

theorem outputChar_outLeft (width : Nat) (cw : Char → Nat)
    (lc : LineChar) (st : RolloutSt) :
    (outputChar width cw lc st).outLeft = st.outLeft := by
  simp only [outputChar]
  repeat' split
  all_goals (try rfl)
  all_goals (rw [outputCharWrap_outLeft])
  all_goals (dsimp only [emit])

theorem outputChar_outTop (width : Nat) (cw : Char → Nat)
    (lc : LineChar) (st : RolloutSt) :
    (outputChar width cw lc st).outTop = st.outTop := by
  simp only [outputChar]
  repeat' split
  all_goals (try rfl)
  all_goals (rw [outputCharWrap_outTop])
  all_goals (dsimp only [emit])

theorem outputChar_breaks_ge (width : Nat) (cw : Char → Nat)
    (lc : LineChar) (st : RolloutSt) :
    st.curBreaks ≤ (outputChar width cw lc st).curBreaks := by
  simp only [outputChar]
  repeat' split
  all_goals
    first
    | (dsimp only [emit]; omega)
    | (refine le_trans ?_ (outputCharWrap_breaks_ge _ _ _ _)
       dsimp only [emit]
       omega)

theorem outputChar_col (width : Nat) (cw : Char → Nat) (lc : LineChar)
    (st : RolloutSt) (h0 : 0 < width) (hpre : st.curColumn < width) :
    (outputChar width cw lc st).curColumn < width := by
  simp only [outputChar]
  repeat' split
  all_goals
    first
    | (dsimp only [emit]; omega)
    | (apply outputCharWrap_col _ _ _ _ h0
       dsimp only [emit]
       omega)

end Liso

namespace Liso

theorem simOutputChar_outLeft (width : Nat) (cw : Char → Nat)
    (lc : LineChar) (st : RolloutSt) :
    (simOutputChar width cw lc st).outLeft = st.outLeft := by
  simp only [simOutputChar]
  repeat' split
  all_goals rfl

theorem simOutputChar_outTop (width : Nat) (cw : Char → Nat)
    (lc : LineChar) (st : RolloutSt) :
    (simOutputChar width cw lc st).outTop = st.outTop := by
  simp only [simOutputChar]
  repeat' split
  all_goals rfl

theorem simOutputChar_breaks_ge (width : Nat) (cw : Char → Nat)
    (lc : LineChar) (st : RolloutSt) :
    st.curBreaks ≤ (simOutputChar width cw lc st).curBreaks := by
  simp only [simOutputChar]
  repeat' split
  all_goals (try dsimp only)
  all_goals omega

theorem simOutputChar_col (width : Nat) (cw : Char → Nat) (lc : LineChar)
    (st : RolloutSt) (h0 : 0 < width) (hpre : st.curColumn < width) :
    (simOutputChar width cw lc st).curColumn < width := by
  simp only [simOutputChar]
  repeat' split
  all_goals (try dsimp only at *)
  all_goals omega

theorem outputChar_inv (width : Nat) (cw : Char → Nat) (lc : LineChar)
    (st : RolloutSt) (h0 : 0 < width) (h : rsInv width st) :
    rsInv width (outputChar width cw lc st) := by
  obtain ⟨h1, h2, h3⟩ := h
  refine ⟨outputChar_col width cw lc st h0 h1, ?_, ?_⟩
  · rw [outputChar_outLeft]
    exact h2
  · rw [outputChar_outTop]
    intro v hv
    exact le_trans (h3 v hv) (outputChar_breaks_ge width cw lc st)

theorem simOutputChar_inv (width : Nat) (cw : Char → Nat) (lc : LineChar)
    (st : RolloutSt) (h0 : 0 < width) (h : rsInv width st) :
    rsInv width (simOutputChar width cw lc st) := by
  obtain ⟨h1, h2, h3⟩ := h
  refine ⟨simOutputChar_col width cw lc st h0 h1, ?_, ?_⟩
  · rw [simOutputChar_outLeft]
    exact h2
  · rw [simOutputChar_outTop]
    intro v hv
    exact le_trans (h3 v hv) (simOutputChar_breaks_ge width cw lc st)

end Liso

namespace Liso

theorem olcLoop_nil_fields (width : Nat) (cw : Char → Nat)
    (cp : Option Nat) (old? : Option (List LineChar)) (st : RolloutSt) :
    (olcLoop width cw cp old? [] st).1.curColumn = st.curColumn
    ∧ (olcLoop width cw cp old? [] st).1.curBreaks = st.curBreaks
    ∧ (olcLoop width cw cp old? [] st).1.outLeft = st.outLeft
    ∧ (olcLoop width cw cp old? [] st).1.outTop = st.outTop := by
  rcases old? with _ | (_ | ⟨a, as⟩)
  · exact ⟨rfl, rfl, rfl, rfl⟩
  · exact ⟨rfl, rfl, rfl, rfl⟩
  · simp only [olcLoop]
    refine ⟨?_, ?_, ?_, ?_⟩ <;>
      · repeat' split
        all_goals
          simp only [emit, reconcile_curColumn, reconcile_curBreaks,
            reconcile_outLeft, reconcile_outTop]

theorem olcLoop_inv (width : Nat) (cw : Char → Nat) (cp : Option Nat)
    (h0 : 0 < width) :
    ∀ (new : List LineChar) (old? : Option (List LineChar))
      (st : RolloutSt), rsInv width st →
      rsInv width (olcLoop width cw cp old? new st).1
      ∧ st.curBreaks ≤ (olcLoop width cw cp old? new st).1.curBreaks := by
  intro new
  induction new with
  | nil =>
    intro old? st h
    obtain ⟨hc, hb, ht⟩ := olcLoop_nil_fields width cw cp old? st
    obtain ⟨h1, h2, h3⟩ := h
    refine ⟨⟨?_, ?_, ?_⟩, ?_⟩
    · rw [hc]; exact h1
    · rw [ht.1]; exact h2
    · rw [ht.2, hb]; exact h3
    · rw [hb]
  | cons b bs ih =>
    intro old? st h
    rcases old? with _ | (_ | ⟨a, as⟩) <;> simp only [olcLoop]
    · have h1 := maybeReport_inv width cp b.index st h
      have h2 := reconcile_inv width
        (maybeReport width cp b.index st).curColumn
        (maybeReport width cp b.index st).curBreaks
        (maybeReport width cp b.index st) h1
      have h3 := outputChar_inv width cw b _ h0 h2
      refine ⟨(ih none _ ?_).1, le_trans ?_ (ih none _ ?_).2⟩
      · exact h3
      · calc st.curBreaks
            = (maybeReport width cp b.index st).curBreaks :=
              (maybeReport_curBreaks width cp b.index st).symm
          _ = (reconcile width
                (maybeReport width cp b.index st).curColumn
                (maybeReport width cp b.index st).curBreaks
                (maybeReport width cp b.index st)).curBreaks :=
              (reconcile_curBreaks width _ _ _).symm
          _ ≤ _ := outputChar_breaks_ge width cw b _
      · exact h3
    · have h1 := maybeReport_inv width cp b.index st h
      have h2 := reconcile_inv width
        (maybeReport width cp b.index st).curColumn
        (maybeReport width cp b.index st).curBreaks
        (maybeReport width cp b.index st) h1
      have h3 := outputChar_inv width cw b _ h0 h2
      refine ⟨(ih none _ ?_).1, le_trans ?_ (ih none _ ?_).2⟩
      · exact h3
      · calc st.curBreaks
            = (maybeReport width cp b.index st).curBreaks :=
              (maybeReport_curBreaks width cp b.index st).symm
          _ = (reconcile width
                (maybeReport width cp b.index st).curColumn
                (maybeReport width cp b.index st).curBreaks
                (maybeReport width cp b.index st)).curBreaks :=
              (reconcile_curBreaks width _ _ _).symm
          _ ≤ _ := outputChar_breaks_ge width cw b _
      · exact h3
    · have h1 := maybeReport_inv width cp b.index st h
      split
      · have h2 := simOutputChar_inv width cw b _ h0 h1
        obtain ⟨ih1, ih2⟩ := ih (some as) _ h2
        refine ⟨ih1, le_trans ?_ ih2⟩
        calc st.curBreaks
            = (maybeReport width cp b.index st).curBreaks :=
              (maybeReport_curBreaks width cp b.index st).symm
          _ ≤ _ := simOutputChar_breaks_ge width cw b _
      · have h2 := reconcile_inv width
          (maybeReport width cp b.index st).curColumn
          (maybeReport width cp b.index st).curBreaks
          (maybeReport width cp b.index st) h1
        split
        · have h3 : rsInv width
              { emit (reconcile width
                  (maybeReport width cp b.index st).curColumn
                  (maybeReport width cp b.index st).curBreaks
                  (maybeReport width cp b.index st))
                  TermOp.clearForwardAndReset with
                curAttr := (Style.PLAIN, none, none) } := by
            obtain ⟨x, y, z⟩ := h2
            exact ⟨x, y, z⟩
          have h4 := outputChar_inv width cw b _ h0 h3
          refine ⟨(ih none _ ?_).1, le_trans ?_ (ih none _ ?_).2⟩
          · exact h4
          · calc st.curBreaks
                = (maybeReport width cp b.index st).curBreaks :=
                  (maybeReport_curBreaks width cp b.index st).symm
              _ = (reconcile width
                    (maybeReport width cp b.index st).curColumn
                    (maybeReport width cp b.index st).curBreaks
                    (maybeReport width cp b.index st)).curBreaks :=
                  (reconcile_curBreaks width _ _ _).symm
              _ ≤ _ := outputChar_breaks_ge width cw b
                  { emit (reconcile width
                      (maybeReport width cp b.index st).curColumn
                      (maybeReport width cp b.index st).curBreaks
                      (maybeReport width cp b.index st))
                      TermOp.clearForwardAndReset with
                    curAttr := (Style.PLAIN, none, none) }
          · exact h4
        · have h4 := outputChar_inv width cw b _ h0 h2
          refine ⟨(ih (some as) _ ?_).1, le_trans ?_ (ih (some as) _ ?_).2⟩
          · exact h4
          · calc st.curBreaks
                = (maybeReport width cp b.index st).curBreaks :=
                  (maybeReport_curBreaks width cp b.index st).symm
              _ = (reconcile width
                    (maybeReport width cp b.index st).curColumn
                    (maybeReport width cp b.index st).curBreaks
                    (maybeReport width cp b.index st)).curBreaks :=
                  (reconcile_curBreaks width _ _ _).symm
              _ ≤ _ := outputChar_breaks_ge width cw b _
          · exact h4

end Liso

namespace Liso

/-- The weakened renderer invariant that survives the endfill (which may
park the simulated column exactly at `width`). -/
def wrsInv (width : Nat) (st : RolloutSt) : Prop :=
  st.curColumn ≤ width
    ∧ (∀ v, st.outLeft = some v → v ≤ width)
    ∧ (∀ v, st.outTop = some v → v ≤ st.curBreaks)

theorem rsInv_weaken (width : Nat) (st : RolloutSt) (h : rsInv width st) :
    wrsInv width st :=
  ⟨Nat.le_of_lt h.1, h.2.1, h.2.2⟩

theorem maybeReport_winv (width : Nat) (cp : Option Nat) (i : Nat)
    (st : RolloutSt) (h : wrsInv width st) :
    wrsInv width (maybeReport width cp i st) := by
  obtain ⟨h1, h2, h3⟩ := h
  unfold maybeReport
  split
  · exact ⟨h1, h2, h3⟩
  · split
    · split <;>
        (refine ⟨h1, ?_, ?_⟩ <;>
          (intro v hv
           dsimp only at hv ⊢
           cases hv
           omega))
    · exact ⟨h1, h2, h3⟩

theorem trailitBlock_curBreaks (width : Nat) (nl : Line) (ef es : Bool)
    (st : RolloutSt) :
    (trailitBlock width nl ef es st).curBreaks = st.curBreaks := by
  simp only [trailitBlock]
  repeat' split
  all_goals
    simp only [emit, reconcile_curBreaks]

theorem trailitBlock_outLeft (width : Nat) (nl : Line) (ef es : Bool)
    (st : RolloutSt) :
    (trailitBlock width nl ef es st).outLeft = st.outLeft := by
  simp only [trailitBlock]
  repeat' split
  all_goals
    simp only [emit, reconcile_outLeft]

theorem trailitBlock_outTop (width : Nat) (nl : Line) (ef es : Bool)
    (st : RolloutSt) :
    (trailitBlock width nl ef es st).outTop = st.outTop := by
  simp only [trailitBlock]
  repeat' split
  all_goals
    simp only [emit, reconcile_outTop]

theorem trailitBlock_col (width : Nat) (nl : Line) (ef es : Bool)
    (st : RolloutSt) (h : st.curColumn ≤ width) :
    (trailitBlock width nl ef es st).curColumn ≤ width := by
  simp only [trailitBlock]
  repeat' split
  all_goals (try exact h)
  all_goals (dsimp only; omega)

theorem trailitBlock_winv (width : Nat) (nl : Line) (ef es : Bool)
    (st : RolloutSt) (h : wrsInv width st) :
    wrsInv width (trailitBlock width nl ef es st) := by
  obtain ⟨h1, h2, h3⟩ := h
  refine ⟨trailitBlock_col width nl ef es st h1, ?_, ?_⟩
  · rw [trailitBlock_outLeft]
    exact h2
  · rw [trailitBlock_outTop, trailitBlock_curBreaks]
    exact h3

theorem breakAfterBlock_outLeft (width : Nat) (ba ef : Bool)
    (st : RolloutSt) :
    (breakAfterBlock width ba ef st).outLeft = st.outLeft := by
  simp only [breakAfterBlock]
  repeat' split
  all_goals simp only [emit]

theorem breakAfterBlock_outTop (width : Nat) (ba ef : Bool)
    (st : RolloutSt) :
    (breakAfterBlock width ba ef st).outTop = st.outTop := by
  simp only [breakAfterBlock]
  repeat' split
  all_goals simp only [emit]

theorem breakAfterBlock_breaks_ge (width : Nat) (ba ef : Bool)
    (st : RolloutSt) :
    st.curBreaks ≤ (breakAfterBlock width ba ef st).curBreaks := by
  simp only [breakAfterBlock]
  repeat' split
  all_goals (try dsimp only [emit])
  all_goals omega

theorem breakAfterBlock_col (width : Nat) (ba ef : Bool)
    (st : RolloutSt) (h : st.curColumn ≤ width) :
    (breakAfterBlock width ba ef st).curColumn ≤ width := by
  simp only [breakAfterBlock]
  repeat' split
  all_goals (try exact h)
  all_goals (dsimp only [emit]; omega)

theorem breakAfterBlock_winv (width : Nat) (ba ef : Bool)
    (st : RolloutSt) (h : wrsInv width st) :
    wrsInv width (breakAfterBlock width ba ef st) := by
  obtain ⟨h1, h2, h3⟩ := h
  refine ⟨breakAfterBlock_col width ba ef st h1, ?_, ?_⟩
  · rw [breakAfterBlock_outLeft]
    exact h2
  · rw [breakAfterBlock_outTop]
    intro v hv
    exact le_trans (h3 v hv) (breakAfterBlock_breaks_ge width ba ef st)

theorem emit_winv (width : Nat) (st : RolloutSt) (op : TermOp)
    (h : wrsInv width st) : wrsInv width (emit st op) := h

end Liso

namespace Liso

theorem olcEpilogue_bounds (width : Nat) (nl : Line) (cp : Option Nat)
    (ba ef : Bool) (lr : RolloutSt × Bool)
    (h : rsInv width lr.1) :
    (olcEpilogue width nl cp ba ef lr).1.cursorLeft ≤ width
    ∧ (olcEpilogue width nl cp ba ef lr).1.cursorTop
        ≤ compositeBreaks (olcEpilogue width nl cp ba ef lr) := by
  simp only [olcEpilogue, compositeBreaks]
  set st1 := maybeReport width cp (utf8Len nl.text) lr.1 with hst1
  set st2 := trailitBlock width nl ef lr.2 st1 with hst2
  set st3 := emit st2 (TermOp.setAttrs Style.PLAIN none none) with hst3
  set st4 := breakAfterBlock width ba ef st3 with hst4
  have hw1 : wrsInv width st1 :=
    rsInv_weaken _ _ (maybeReport_inv width cp (utf8Len nl.text) lr.1 h)
  have hw2 : wrsInv width st2 := trailitBlock_winv _ _ _ _ _ hw1
  have hw3 : wrsInv width st3 := hw2
  have hw4 : wrsInv width st4 := breakAfterBlock_winv _ _ _ _ hw3
  have hL : st4.outLeft.getD st4.curColumn ≤ width := by
    cases hcase : st4.outLeft with
    | none => simpa using hw4.1
    | some v => simpa using hw4.2.1 v hcase
  have hT : st4.outTop.getD st4.curBreaks ≤ st4.curBreaks := by
    cases hcase : st4.outTop with
    | none => simp
    | some v => simpa using hw4.2.2 v hcase
  set cl := st4.outLeft.getD st4.curColumn with hcl
  set ct := st4.outTop.getD st4.curBreaks with hct
  set st5 := reconcile width cl ct st4 with hst5
  have h5b : st5.curBreaks = st4.curBreaks := reconcile_curBreaks _ _ _ _
  refine ⟨hL, ?_⟩
  split
  · split <;> (dsimp only [emit]; omega)
  · omega

end Liso

namespace Liso

/-- Counterexample to the literal reading of C3: with terminal width 2,
endfill enabled and a fully inverse-styled line `"a"`, the endfill pads
the line to the right edge and the recorded cursor column is exactly
`width`, not strictly below it. -/
theorem c3_cursor_left_reaches_width_cex :
    ¬ ((outputLineChangesCore 2 cwDemo none
        ((Line.new.setStyle Style.INVERSE).addText "a".toList)
        none false true).1.cursorLeft < 2) := by decide

/-- C3 (amended): after every completed rollout of
`output_line_changes` on a positive-width terminal, the cursor column
recorded in `RememberedOutput` lies in `[0, width]` — the right edge
inclusive, reachable both through `maybe_report`'s clamp and through the
endfill — and the recorded row lies in `[0, b]` where `b` is the number
of physical line breaks the rendered composite spans
(`compositeBreaks`). -/
theorem c3_rollout_cursor_bounds (width : Nat) (cw : Char → Nat)
    (remembered : Option RememberedOutput) (nl : Line) (cp : Option Nat)
    (ba ef : Bool) (h0 : 0 < width) :
    (outputLineChangesCore width cw remembered nl cp ba ef).1.cursorLeft
      ≤ width
    ∧ (outputLineChangesCore width cw remembered nl cp ba ef).1.cursorTop
      ≤ compositeBreaks
          (outputLineChangesCore width cw remembered nl cp ba ef) := by
  simp only [outputLineChangesCore]
  apply olcEpilogue_bounds
  apply (olcLoop_inv width cw cp h0 _ _ _ ?_).1
  refine ⟨h0, ?_, ?_⟩ <;>
    (intro v hv
     exact Option.noConfusion hv)

end Liso

namespace Liso

/-- Witness for C3 at a concrete rollout: width 2, inverse line "a",
cursor at byte 0, break-after and endfill enabled. -/
theorem c3_rollout_cursor_bounds_witness :
    0 < 2
    ∧ ((outputLineChangesCore 2 cwDemo none
          ((Line.new.setStyle Style.INVERSE).addText "a".toList)
          (some 0) true true).1.cursorLeft ≤ 2
        ∧ (outputLineChangesCore 2 cwDemo none
            ((Line.new.setStyle Style.INVERSE).addText "a".toList)
            (some 0) true true).1.cursorTop
          ≤ compositeBreaks
              (outputLineChangesCore 2 cwDemo none
                ((Line.new.setStyle Style.INVERSE).addText "a".toList)
                (some 0) true true)) :=
  ⟨by decide,
   c3_rollout_cursor_bounds 2 cwDemo none
     ((Line.new.setStyle Style.INVERSE).addText "a".toList)
     (some 0) true true (by decide)⟩

end Liso
